import Mathlib

/-!
Verification of the sync engine of an offline-first collaborative
tabular-data server.

The Python source (`backend/sync_engine.py`, `backend/database.py`,
`backend/models.py`, `backend/app.py`) is shallowly embedded below.
Operations travel as dictionaries with optional fields; they are modelled
as records of `Option`-typed fields (`none` = key absent or `None`).
Python exceptions are modelled with `Except String`; `await`ed storage
calls become explicit state passing over a `Store` record.  Wall-clock
reads (cursor generation, `serverTs`) are abstracted as parameters or
fixed placeholders since no verified property depends on their values.
The dictionary key `by` of cell metadata is rendered `by_` (Lean keyword);
the `version` / `updatedAt` bookkeeping columns of the tables store are
not modelled (no verified property mentions them).
-/

namespace SyncSpec

/-- Cell metadata used for LWW tiebreaking (`models.CellMeta`).
`ts` is optional because `_should_apply_change` handles dictionaries whose
`"ts"` key is missing; a meta dictionary lacking `"by"` behaves exactly like
`by_ = ""` (the source reads it with `current_meta.get("by", "")`). -/
structure CellMeta where
  value : String
  ts : Option Int
  by_ : String
deriving Repr, DecidableEq

/-- A table row (`models.Row`). -/
structure Row where
  rowId : String
  cells : List String
  cellMeta : List (Option CellMeta)
deriving Repr, DecidableEq

/-- A materialized table (`models.Table`, minus the `version`/`updatedAt`
bookkeeping columns, which no verified property mentions). -/
structure Table where
  id : String
  name : String
  headers : List String
  rows : List Row
deriving Repr, DecidableEq

/-- An inbound operation: the dictionary payload read with `op.get(...)`
throughout `sync_engine.py` (`models.ChangeOp` where every field may be
absent).  `col` is the non-negative column index of a `setCell`; the wire
format declares it as an integer, and every verified property concerns
non-negative indices, so it is modelled as `Nat`. -/
structure ChangeOp where
  op : Option String
  tableId : Option String
  rowId : Option String
  col : Option Nat
  value : Option String
  afterRowId : Option String
  colIndex : Option Int
  header : Option String
  name : Option String
  ts : Option Int
deriving Repr, DecidableEq

/-- A persisted sync event (`sync_events` row as parsed by
`_parse_event_row`).  `operation` is `none` when the stored payload is the
empty dictionary (which `_event_to_delta` treats as missing). -/
structure SyncEvent where
  id : Nat
  cursor : String
  clientId : String
  operation : Option ChangeOp
  serverTs : String
deriving Repr, DecidableEq

/-- The wire projection of an event built by `_event_to_delta`. -/
structure Delta where
  op : Option String
  tableId : Option String
  rowId : Option String
  col : Option Nat
  value : Option String
  afterRowId : Option String
  colIndex : Option Int
  header : Option String
  name : Option String
  serverTs : String
  by_ : String
deriving Repr, DecidableEq

/-- A conflict record appended by `process_sync`
(`{"operation": op, "reason": "Failed to apply"}`). -/
structure ConflictRec where
  operation : ChangeOp
  reason : String
deriving Repr, DecidableEq

/-- The dictionary returned by `process_sync`. -/
structure SyncResult where
  cursor : String
  deltas : List Delta
  conflicts : List ConflictRec
deriving Repr, DecidableEq

/-- The dictionary returned by `get_changes_since`. -/
structure PullResult where
  cursor : String
  deltas : List Delta
  tables : List Table
deriving Repr, DecidableEq

/-- The state of the storage layer (`database.Database`): materialized
tables plus the append-only event log, kept in `id` order (ids are assigned
by `AUTOINCREMENT`/`SERIAL`, so insertion order is id order and every SQL
`ORDER BY id ASC` is the list order).  `getTableCalls` instruments the
number of `get_table` reads performed, used to verify which code paths
issue a materialization read.  `failUpdate` / `failAppend` inject storage
faults: when set, `update_table` / `add_sync_event` raise. -/
structure Store where
  tables : List Table
  events : List SyncEvent
  nextId : Nat
  getTableCalls : Nat
  failUpdate : Bool
  failAppend : Bool
deriving Repr, DecidableEq

/-- The body of `POST /api/sync` (`models.SyncRequest`). -/
structure SyncRequest where
  clientId : String
  baseCursor : String
  ops : List ChangeOp
deriving Repr, DecidableEq

/-- The response of `POST /api/sync` (`models.SyncResponse`), modelled as
plain record construction. -/
structure SyncResponse where
  success : Bool
  cursor : String
  deltas : List Delta
  conflicts : List ConflictRec
  error : Option String
deriving Repr, DecidableEq

/-- The effect an `_apply_*` helper requests from the store:
`noWrite b` = the helper returned `b` without calling `update_table`;
`write t` = the helper ends in `return await self.db.update_table(t["id"], t)`. -/
inductive ApplyEffect where
  | noWrite (res : Bool)
  | write (t : Table)
deriving Repr, DecidableEq

/-! ## Storage layer (`database.py`) -/

/-- `Database.get_table`: look up a table by id.  The instrumentation
counter records that a materialization read happened. -/
def db_get_table (s : Store) (table_id : String) : Option Table × Store :=
  (s.tables.find? (fun t => t.id = table_id),
   { s with getTableCalls := s.getTableCalls + 1 })

/-- `Database.update_table`: overwrite the row with the given id; returns
whether a row matched.  Raises when a storage fault is injected. -/
def db_update_table (s : Store) (table_id : String) (t : Table) :
    Except String (Bool × Store) :=
  if s.failUpdate then .error "storage fault: update_table" else
    .ok (s.tables.any (fun u => u.id = table_id),
         { s with tables := s.tables.map (fun u => if u.id = table_id then t else u) })

/-- `Database.delete_table`: remove the row with the given id; returns
whether a row matched. -/
def db_delete_table (s : Store) (table_id : String) : Bool × Store :=
  (s.tables.any (fun u => u.id = table_id),
   { s with tables := s.tables.filter (fun u => !(u.id = table_id : Bool)) })

/-- `Database.add_sync_event`: append an event with a server-assigned
monotonic id.  The wall-clock `server_ts` is abstracted as `""`.  Raises
when a storage fault is injected. -/
def db_add_sync_event (s : Store) (cursor : String) (client_id : String)
    (operation : ChangeOp) : Except String Store :=
  if s.failAppend then .error "storage fault: add_sync_event" else
    .ok { s with
          events := s.events ++
            [{ id := s.nextId, cursor := cursor, clientId := client_id,
               operation := some operation, serverTs := "" }],
          nextId := s.nextId + 1 }

/-- The events strictly after the position named by `cursor`, in `id`
order: the `WHERE id > (SELECT id FROM sync_events WHERE cursor = ?)
ORDER BY id ASC` scan of `get_events_since`.  `"0"` means from the
beginning; an unresolvable cursor yields the empty scan (`id > NULL`). -/
def eventsAfterCursor (s : Store) (cursor : String) : List SyncEvent :=
  if cursor = "0" then s.events
  else
    match s.events.find? (fun e => e.cursor = cursor) with
    | none => []
    | some e0 => s.events.filter (fun e => e0.id < e.id)

/-- `Database.get_events_since(cursor, limit=100)`. -/
def db_get_events_since (s : Store) (cursor : String) (limit : Nat) :
    List SyncEvent :=
  (eventsAfterCursor s cursor).take limit

/-- `Database.get_latest_cursor`: cursor of the highest-id event, `"0"`
when the log is empty (`ORDER BY id DESC LIMIT 1` on the id-ordered log is
its last element). -/
def db_get_latest_cursor (s : Store) : String :=
  match s.events.getLast? with
  | none => "0"
  | some e => e.cursor

/-! ## Operation applier (`sync_engine.py`, per-op helpers) -/

/-- Lexicographic comparison of two character lists by code point: the
comparison Python performs on `str` operands of `<` / `>`. -/
def strLtAux : List Char → List Char → Bool
  | [], [] => false
  | [], _ :: _ => true
  | _ :: _, [] => false
  | a :: as, b :: bs =>
    if a = b then strLtAux as bs else decide (a.toNat < b.toNat)

/-- Python's `x < y` on strings (so `y > x`): lexicographic by code
point.  Defined explicitly so that it is kernel-computable. -/
def strLt (x y : String) : Bool := strLtAux x.data y.data

/-- `SyncEngine._should_apply_change`: the LWW rule.  `.error` models the
`TypeError` raised by Python when `remote_ts` is `None` and is compared
with an integer. -/
def should_apply_change (current_meta : Option CellMeta) (remote_ts : Option Int)
    (remote_client_id : String) : Except String Bool :=
  match current_meta with
  | none => .ok true
  | some m =>
    match m.ts with
    | none => .ok true
    | some current_ts =>
      if current_ts = 0 then .ok true
      else
        match remote_ts with
        | none => .error "TypeError: comparison with None"
        | some rts =>
          if current_ts < rts then .ok true
          else if rts = current_ts then .ok (strLt m.by_ remote_client_id)
          else .ok false

/-- The `while len(l) <= col: l.append(d)` padding loop of
`_apply_set_cell`, for filler `d`. -/
def padList {α : Type} (d : α) (l : List α) (col : Nat) : List α :=
  l ++ List.replicate (col + 1 - l.length) d

/-- The `while len(cells) <= col: cells.append("")` padding loop of
`_apply_set_cell`. -/
def padTo (cells : List String) (col : Nat) : List String :=
  padList "" cells col

/-- The `while len(cell_meta) <= col: cell_meta.append(None)` padding loop
of `_apply_set_cell`. -/
def padMetaTo (cellMeta : List (Option CellMeta)) (col : Nat) :
    List (Option CellMeta) :=
  padList none cellMeta col

/-- The row loop of `_apply_set_cell`.  The first row whose `rowId`
matches is padded and consulted; on an LWW win the padded row is
overwritten at `col` and the scan stops with `true`; on a loss the scan
continues over the remaining rows carrying the in-place padding mutation
(Python mutates the aliased `cells`/`cellMeta` lists before deciding). -/
def setCellLoop (row_id : String) (col : Nat) (value : String)
    (ts : Option Int) (client_id : String) :
    List Row → Except String (Bool × List Row)
  | [] => .ok (false, [])
  | r :: rest =>
    if r.rowId = row_id then
      let cells := padTo r.cells col
      let meta := padMetaTo r.cellMeta col
      match should_apply_change (meta.getD col none) ts client_id with
      | .error e => .error e
      | .ok true =>
          .ok (true,
            { r with
              cells := cells.set col value,
              cellMeta := meta.set col
                (some { value := value, ts := ts, by_ := client_id }) } :: rest)
      | .ok false =>
          match setCellLoop row_id col value ts client_id rest with
          | .error e => .error e
          | .ok (b, rest') =>
              .ok (b, { r with cells := cells, cellMeta := meta } :: rest')
    else
      match setCellLoop row_id col value ts client_id rest with
      | .error e => .error e
      | .ok (b, rest') => .ok (b, r :: rest')

/-- `SyncEngine._apply_set_cell`.  Returns the requested store effect:
`write t'` models `return await self.db.update_table(table["id"], table)`
with the mutated table. -/
def apply_set_cell (table : Option Table) (op : ChangeOp) (client_id : String) :
    Except String ApplyEffect :=
  match table with
  | none => .ok (.noWrite false)
  | some t =>
    match op.rowId, op.col with
    | some row_id, some col =>
      match setCellLoop row_id col (op.value.getD "") op.ts client_id t.rows with
      | .error e => .error e
      | .ok (true, rows') => .ok (.write { t with rows := rows' })
      | .ok (false, _) => .ok (.noWrite false)
    | _, _ => .ok (.noWrite false)

/-- The `for ... else` insertion of `_apply_add_row`: insert the new row
immediately after the first row matching `after_row_id`, appending when no
row matches. -/
def insertAfterRow (after_row_id : String) (new_row : Row) :
    List Row → List Row
  | [] => [new_row]
  | r :: rest =>
    if r.rowId = after_row_id then r :: new_row :: rest
    else r :: insertAfterRow after_row_id new_row rest

/-- `SyncEngine._apply_add_row`.  `if not row_id` covers both a missing
`rowId` and the empty string (Python falsiness); likewise
`if after_row_id` treats `""` as absent. -/
def apply_add_row (table : Option Table) (op : ChangeOp) (_client_id : String) :
    ApplyEffect :=
  match table with
  | none => .noWrite false
  | some t =>
    match op.rowId with
    | none => .noWrite false
    | some row_id =>
      if row_id = "" then .noWrite false
      else if t.rows.any (fun r => r.rowId = row_id) then .noWrite true
      else
        let new_row : Row :=
          { rowId := row_id,
            cells := List.replicate t.headers.length "",
            cellMeta := [] }
        let rows' :=
          match op.afterRowId with
          | some after_row_id =>
            if after_row_id = "" then t.rows ++ [new_row]
            else insertAfterRow after_row_id new_row t.rows
          | none => t.rows ++ [new_row]
        .write { t with rows := rows' }

/-- `SyncEngine._apply_delete_row`: filter out every row with the id and
persist unconditionally (missing id is a no-op success). -/
def apply_delete_row (table : Option Table) (op : ChangeOp) (_client_id : String) :
    ApplyEffect :=
  match table with
  | none => .noWrite false
  | some t =>
    match op.rowId with
    | none => .noWrite false
    | some row_id =>
      if row_id = "" then .noWrite false
      else .write { t with rows := t.rows.filter (fun r => !(r.rowId = row_id : Bool)) }

/-- The clamped insertion of `_apply_add_column`: Python inserts at
`col_index` when `0 <= col_index <= len(l)` and appends otherwise. -/
def insertClamped {α : Type} (col_index : Int) (a : α) (l : List α) : List α :=
  if 0 ≤ col_index ∧ col_index ≤ (l.length : Int) then
    l.insertIdx col_index.toNat a
  else l ++ [a]

/-- `SyncEngine._apply_add_column`.  An absent `colIndex` defaults to
`len(headers)` and an absent `header` defaults to `"Column {col_index+1}"`. -/
def apply_add_column (table : Option Table) (op : ChangeOp) (_client_id : String) :
    ApplyEffect :=
  match table with
  | none => .noWrite false
  | some t =>
    let col_index : Int := op.colIndex.getD (t.headers.length : Int)
    let header := op.header.getD ("Column " ++ toString (col_index + 1))
    let headers' := insertClamped col_index header t.headers
    let rows' := t.rows.map (fun r =>
      { r with
        cells := insertClamped col_index "" r.cells,
        cellMeta := insertClamped col_index none r.cellMeta })
    .write { t with headers := headers', rows := rows' }

/-- `SyncEngine._apply_delete_column`: the index must satisfy
`0 <= colIndex < len(headers)`; each row's `cells`/`cellMeta` lose the
entry at that index when it is in range for that row. -/
def apply_delete_column (table : Option Table) (op : ChangeOp) (_client_id : String) :
    ApplyEffect :=
  match table with
  | none => .noWrite false
  | some t =>
    match op.colIndex with
    | none => .noWrite false
    | some col_index =>
      if col_index < 0 ∨ (t.headers.length : Int) ≤ col_index then .noWrite false
      else
        let i := col_index.toNat
        .write { t with
          headers := t.headers.eraseIdx i,
          rows := t.rows.map (fun r =>
            { r with
              cells := if i < r.cells.length then r.cells.eraseIdx i else r.cells,
              cellMeta := if i < r.cellMeta.length then r.cellMeta.eraseIdx i
                          else r.cellMeta }) }

/-- `SyncEngine._apply_set_header`: requires `0 <= colIndex < len(headers)`;
an absent `header` defaults to `""`. -/
def apply_set_header (table : Option Table) (op : ChangeOp) (_client_id : String) :
    ApplyEffect :=
  match table with
  | none => .noWrite false
  | some t =>
    match op.colIndex with
    | none => .noWrite false
    | some col_index =>
      if 0 ≤ col_index ∧ col_index < (t.headers.length : Int) then
        .write { t with headers := t.headers.set col_index.toNat (op.header.getD "") }
      else .noWrite false

/-- `SyncEngine._apply_rename_table`: an absent or empty name is rejected. -/
def apply_rename_table (table : Option Table) (op : ChangeOp) (_client_id : String) :
    ApplyEffect :=
  match table with
  | none => .noWrite false
  | some t =>
    match op.name with
    | none => .noWrite false
    | some name =>
      if name = "" then .noWrite false
      else .write { t with name := name }

/-- The per-type dispatch of `SyncEngine._apply_operation` for the seven
table-mutating operations (the `deleteTable` branch, which bypasses the
materialized table and goes straight to the store, lives in
`apply_operation` below; branch order over the distinct operation-type
strings is immaterial).  An unknown operation type yields `False`. -/
def apply_pure (op_type : String) (table : Option Table) (op : ChangeOp)
    (client_id : String) : Except String ApplyEffect :=
  if op_type = "setCell" then apply_set_cell table op client_id
  else if op_type = "addRow" then .ok (apply_add_row table op client_id)
  else if op_type = "deleteRow" then .ok (apply_delete_row table op client_id)
  else if op_type = "addColumn" then .ok (apply_add_column table op client_id)
  else if op_type = "deleteColumn" then .ok (apply_delete_column table op client_id)
  else if op_type = "setHeader" then .ok (apply_set_header table op client_id)
  else if op_type = "renameTable" then .ok (apply_rename_table table op client_id)
  else .ok (.noWrite false)

/-- `SyncEngine._apply_delete_table`: passes the id straight to the
store's delete. -/
def apply_delete_table (s : Store) (table_id : String) : Bool × Store :=
  db_delete_table s table_id

/-- `SyncEngine._apply_operation`.  The whole body runs under
`try/except Exception: return False`, so a raised `TypeError` or an
injected storage fault is swallowed and reported as `False` (a failed
apply), never re-raised.  The current table is read from the store
*before* dispatching on the operation type — including for `deleteTable`. -/
def apply_operation (s : Store) (op : ChangeOp) (client_id : String) :
    Bool × Store :=
  match op.op, op.tableId with
  | some op_type, some table_id =>
    if op_type = "" ∨ table_id = "" then (false, s)
    else
      let (table, s1) := db_get_table s table_id
      if op_type = "deleteTable" then
        apply_delete_table s1 table_id
      else
        match apply_pure op_type table op client_id with
        | .error _ => (false, s1)
        | .ok (.noWrite b) => (b, s1)
        | .ok (.write t) =>
          match db_update_table s1 t.id t with
          | .error _ => (false, s1)
          | .ok (b, s2) => (b, s2)
  | _, _ => (false, s)

/-! ## Sync coordinator (`sync_engine.py`, `process_sync` and friends) -/

/-- `SyncEngine._event_to_delta`: an event whose stored operation payload
is empty projects to nothing. -/
def event_to_delta (event : SyncEvent) : Option Delta :=
  match event.operation with
  | none => none
  | some o =>
    some { op := o.op, tableId := o.tableId, rowId := o.rowId, col := o.col,
           value := o.value, afterRowId := o.afterRowId, colIndex := o.colIndex,
           header := o.header, name := o.name,
           serverTs := event.serverTs, by_ := event.clientId }

/-- The filtering loop of `_get_other_client_changes`: skip events from
the requesting client, project the rest. -/
def otherLoop (client_id : String) : List SyncEvent → List Delta
  | [] => []
  | e :: rest =>
    if e.clientId = client_id then otherLoop client_id rest
    else
      match event_to_delta e with
      | some d => d :: otherLoop client_id rest
      | none => otherLoop client_id rest

/-- `SyncEngine._get_other_client_changes`. -/
def get_other_client_changes (s : Store) (base_cursor : String)
    (client_id : String) : List Delta :=
  otherLoop client_id (db_get_events_since s base_cursor 100)

/-- The `for op in operations` loop of `process_sync`: apply each
operation (apply errors are swallowed inside `_apply_operation`), append
an event for each success (a raised storage fault there propagates),
record a conflict for each failure.  `gen` abstracts
`_generate_cursor(client_id, op)` (wall clock + content hash). -/
def syncLoop (gen : String → ChangeOp → String) (client_id : String) :
    Store → List ChangeOp → List ConflictRec →
    Except (String × Store) (List ConflictRec × Store)
  | s, [], conflicts => .ok (conflicts, s)
  | s, op :: rest, conflicts =>
    let (success, s1) := apply_operation s op client_id
    if success then
      match db_add_sync_event s1 (gen client_id op) client_id op with
      | .error e => .error (e, s1)
      | .ok s2 => syncLoop gen client_id s2 rest conflicts
    else
      syncLoop gen client_id s1 rest
        (conflicts ++ [{ operation := op, reason := "Failed to apply" }])

/-- `SyncEngine.process_sync`: apply the batch in input order, then read
the latest cursor and the other-client deltas since `base_cursor`.
`.error` carries the store as mutated so far (partial effects persist). -/
def process_sync (gen : String → ChangeOp → String) (s : Store)
    (client_id : String) (base_cursor : String) (operations : List ChangeOp) :
    Except (String × Store) (SyncResult × Store) :=
  match syncLoop gen client_id s operations [] with
  | .error es => .error es
  | .ok (conflicts, s') =>
    .ok ({ cursor := db_get_latest_cursor s',
           deltas := get_other_client_changes s' base_cursor client_id,
           conflicts := conflicts }, s')

/-- `SyncEngine.get_changes_since`: project the events past the cursor,
return the latest cursor, and seed the full table snapshot when pulling
from the beginning. -/
def get_changes_since (s : Store) (cursor : String) : PullResult :=
  let events := db_get_events_since s cursor 100
  { cursor := db_get_latest_cursor s,
    deltas := events.filterMap event_to_delta,
    tables := if cursor = "0" then s.tables else [] }

/-- The `POST /api/sync` handler (`app.sync_push`): a successful
`process_sync` becomes a `success=true` response; a raised error becomes
`success=false` with the error and the caller's `baseCursor` echoed back,
empty deltas and empty conflicts. -/
def sync_push (gen : String → ChangeOp → String) (s : Store)
    (req : SyncRequest) : SyncResponse × Store :=
  match process_sync gen s req.clientId req.baseCursor req.ops with
  | .ok (r, s') =>
    ({ success := true, cursor := r.cursor, deltas := r.deltas,
       conflicts := r.conflicts, error := none }, s')
  | .error (e, s') =>
    ({ success := false, cursor := req.baseCursor, deltas := [],
       conflicts := [], error := some e }, s')

/-! ## Spec-side definitions

These are the only definitions that follow the specification's wording
rather than the source; they exist to be compared with the source-derived
definitions above. -/

/-- The LWW acceptance rule exactly as the specification words it: an
absent metadata entry, or one whose `ts` is missing or zero, accepts
unconditionally; otherwise the incoming write wins iff
`op.ts > existing.ts`, or `op.ts == existing.ts` and
`op.clientId > existing.by` (lexicographic string comparison). -/
def lwwSpecApplies (existing : Option CellMeta) (ts : Int) (client_id : String) :
    Bool :=
  match existing with
  | none => true
  | some m =>
    match m.ts with
    | none => true
    | some mt =>
      if mt = 0 then true
      else decide (mt < ts) || (decide (ts = mt) && strLt m.by_ client_id)

/-- Lexicographic strictly-greater on `(ts, clientId)` pairs, as the
specification compares concurrent writes. -/
def lexGt (a b : Int × String) : Bool :=
  decide (b.1 < a.1) || (decide (a.1 = b.1) && strLt b.2 a.2)

/-! ## Reasoning helpers -/

/-- The value held by cell `(row_id, col)` of a table (`""` when the row
or the cell is missing). -/
def cellValue (t : Table) (row_id : String) (col : Nat) : String :=
  match t.rows.find? (fun r => r.rowId = row_id) with
  | some r => r.cells.getD col ""
  | none => ""

/-- One engine round trip of a `setCell` on a fault-free store: read the
table, run `_apply_set_cell`, persist the post-image on success, keep the
table unchanged otherwise. -/
def runSetCell (t : Table) (op : ChangeOp) (client_id : String) : Table :=
  match apply_set_cell (some t) op client_id with
  | .ok (.write t') => t'
  | _ => t

/-- Projection of a successful write effect. -/
def resultTable (e : Except String ApplyEffect) : Option Table :=
  match e with
  | .ok (.write t) => some t
  | _ => none

/-! ## Padding lemmas -/

theorem length_padList {α : Type} (d : α) (l : List α) (col : Nat) :
    (padList d l col).length = max l.length (col + 1) := by
  simp [padList]
  omega

theorem lt_length_padList {α : Type} (d : α) (l : List α) (col : Nat) :
    col < (padList d l col).length := by
  rw [length_padList]
  omega

theorem getD_padList {α : Type} (d : α) (l : List α) (col : Nat) :
    (padList d l col).getD col d = l.getD col d := by
  rcases Nat.lt_or_ge col l.length with h | h
  · exact List.getD_append _ _ _ _ h
  · rw [padList, List.getD_append_right _ _ _ _ h, List.getD_eq_default _ _ h]
    rcases Nat.lt_or_ge (col - l.length) (List.replicate (col + 1 - l.length) d).length
      with h' | h'
    · rw [List.getD_eq_getElem _ _ h', List.getElem_replicate]
    · exact List.getD_eq_default _ _ h'

theorem getD_set_padList {α : Type} (d d' : α) (l : List α) (col : Nat) (x : α) :
    ((padList d l col).set col x).getD col d' = x := by
  have h : col < ((padList d l col).set col x).length := by
    rw [List.length_set]; exact lt_length_padList d l col
  rw [List.getD_eq_getElem _ _ h, List.getElem_set_self]

theorem padList_of_lt {α : Type} (d : α) (l : List α) (col : Nat)
    (h : col < l.length) : padList d l col = l := by
  have : col + 1 - l.length = 0 := by omega
  simp [padList, this]

/-! ## Characterization of `_apply_set_cell` -/

/-- `_should_apply_change` agrees with the specification's LWW rule
whenever the operation carries a timestamp. -/
theorem should_apply_change_eq_spec (m : Option CellMeta) (τ : Int)
    (cid : String) :
    should_apply_change m (some τ) cid = .ok (lwwSpecApplies m τ cid) := by
  match m with
  | none => rfl
  | some mm =>
    match h : mm.ts with
    | none => simp [should_apply_change, lwwSpecApplies, h]
    | some mt =>
      by_cases h0 : mt = 0
      · simp [should_apply_change, lwwSpecApplies, h, h0]
      · by_cases hlt : mt < τ
        · simp [should_apply_change, lwwSpecApplies, h, h0, hlt]
        · by_cases heq : τ = mt
          · simp [should_apply_change, lwwSpecApplies, h, h0, hlt, heq]
          · simp [should_apply_change, lwwSpecApplies, h, h0, hlt, heq]

/-- The row scan of `_apply_set_cell` leaves a list with no matching row
untouched and reports no write. -/
theorem setCellLoop_no_match (rid : String) (c : Nat) (v : String)
    (ts : Option Int) (cid : String) :
    ∀ (rows : List Row), (∀ r ∈ rows, r.rowId ≠ rid) →
      setCellLoop rid c v ts cid rows = .ok (false, rows) := by
  intro rows h
  induction rows with
  | nil => rfl
  | cons r rest ih =>
    have hr : r.rowId ≠ rid := h r (List.mem_cons_self r rest)
    have hrest : ∀ r' ∈ rest, r'.rowId ≠ rid := fun r' hm => h r' (List.mem_cons_of_mem r hm)
    simp [setCellLoop, hr, ih hrest]

/-- The row scan skips a prefix of non-matching rows. -/
theorem setCellLoop_append (rid : String) (c : Nat) (v : String)
    (ts : Option Int) (cid : String) (pre rows : List Row)
    (hpre : ∀ r ∈ pre, r.rowId ≠ rid) (b : Bool) (rows' : List Row)
    (h : setCellLoop rid c v ts cid rows = .ok (b, rows')) :
    setCellLoop rid c v ts cid (pre ++ rows) = .ok (b, pre ++ rows') := by
  induction pre with
  | nil => simpa using h
  | cons r rest ih =>
    have hr : r.rowId ≠ rid := hpre r (List.mem_cons_self r rest)
    have hrest : ∀ r' ∈ rest, r'.rowId ≠ rid :=
      fun r' hm => hpre r' (List.mem_cons_of_mem r hm)
    simp [setCellLoop, hr, ih hrest]

/-- Full characterization of `_apply_set_cell` on a table whose target
row occurs exactly once: the write goes through iff the specification's
LWW rule accepts, in which case `cells[col]` and `cellMeta[col]` of the
(padded) target row are overwritten with the new value, timestamp and
client id; otherwise no write is requested. -/
theorem apply_set_cell_char (t : Table) (pre post : List Row) (r : Row)
    (rid : String) (c : Nat) (v : String) (τ : Int) (cid : String)
    (op : ChangeOp)
    (hrows : t.rows = pre ++ r :: post)
    (hpre : ∀ r' ∈ pre, r'.rowId ≠ rid) (hr : r.rowId = rid)
    (hpost : ∀ r' ∈ post, r'.rowId ≠ rid)
    (hop : op.rowId = some rid) (hcol : op.col = some c)
    (hts : op.ts = some τ) (hval : op.value = some v) :
    apply_set_cell (some t) op cid =
      .ok (if lwwSpecApplies (r.cellMeta.getD c none) τ cid then
            .write { t with rows := pre ++
              { r with
                cells := (padTo r.cells c).set c v,
                cellMeta := (padMetaTo r.cellMeta c).set c
                  (some { value := v, ts := some τ, by_ := cid }) } :: post }
           else .noWrite false) := by
  have hmeta : (padMetaTo r.cellMeta c).getD c none = r.cellMeta.getD c none :=
    getD_padList none r.cellMeta c
  have hloop : setCellLoop rid c v (some τ) cid (r :: post) =
      .ok (if lwwSpecApplies (r.cellMeta.getD c none) τ cid then
            (true,
              { r with
                cells := (padTo r.cells c).set c v,
                cellMeta := (padMetaTo r.cellMeta c).set c
                  (some { value := v, ts := some τ, by_ := cid }) } :: post)
           else
            (false, { r with cells := padTo r.cells c,
                             cellMeta := padMetaTo r.cellMeta c } :: post)) := by
    cases hla : lwwSpecApplies (r.cellMeta.getD c none) τ cid
    · simp only [setCellLoop, if_pos hr, hmeta, should_apply_change_eq_spec, hla,
        setCellLoop_no_match rid c v (some τ) cid post hpost]
      simp
    · simp only [setCellLoop, if_pos hr, hmeta, should_apply_change_eq_spec, hla]
      simp
  cases hla : lwwSpecApplies (r.cellMeta.getD c none) τ cid
  · have hfull := setCellLoop_append rid c v (some τ) cid pre (r :: post) hpre _ _
      (by rw [hloop, hla])
    simp only [apply_set_cell, hop, hcol, hts, hval, Option.getD_some, hrows, hfull, hla]
    simp
  · have hfull := setCellLoop_append rid c v (some τ) cid pre (r :: post) hpre _ _
      (by rw [hloop, hla])
    simp only [apply_set_cell, hop, hcol, hts, hval, Option.getD_some, hrows, hfull, hla]
    simp

/-- `not current_meta or not current_meta.get("ts")`: the Python falsiness
test that short-circuits the LWW comparison. -/
def metaFalsy (m : Option CellMeta) : Bool :=
  match m with
  | none => true
  | some mm =>
    match mm.ts with
    | none => true
    | some t => decide (t = 0)

theorem lwwSpecApplies_of_falsy (m : Option CellMeta) (τ : Int) (cid : String)
    (h : metaFalsy m = true) : lwwSpecApplies m τ cid = true := by
  match m with
  | none => rfl
  | some mm =>
    match hts : mm.ts with
    | none => simp [lwwSpecApplies, hts]
    | some t =>
      simp [metaFalsy, hts] at h
      simp [lwwSpecApplies, hts, h]

instance {ε α : Type} [DecidableEq ε] [DecidableEq α] :
    DecidableEq (Except ε α) := fun a b =>
  match a, b with
  | .error x, .error y =>
    if h : x = y then .isTrue (by rw [h])
    else .isFalse (fun hh => h (by injection hh))
  | .error _, .ok _ => .isFalse (fun hh => Except.noConfusion hh)
  | .ok _, .error _ => .isFalse (fun hh => Except.noConfusion hh)
  | .ok x, .ok y =>
    if h : x = y then .isTrue (by rw [h])
    else .isFalse (fun hh => h (by injection hh))

/-! ## Order facts about the code-point string comparison -/

theorem char_toNat_inj {a b : Char} (h : a.toNat = b.toNat) : a = b :=
  Char.eq_of_val_eq (UInt32.eq_of_toBitVec_eq (BitVec.eq_of_toNat_eq h))

theorem strLtAux_asymm :
    ∀ (l m : List Char), strLtAux l m = true → strLtAux m l = false := by
  intro l
  induction l with
  | nil =>
    intro m h
    cases m with
    | nil => simp [strLtAux] at h
    | cons b bs => simp [strLtAux]
  | cons a as ih =>
    intro m h
    cases m with
    | nil => simp [strLtAux] at h
    | cons b bs =>
      by_cases hab : a = b
      · subst hab
        simp only [strLtAux, if_pos rfl] at h ⊢
        exact ih bs h
      · have hba : b ≠ a := fun e => hab e.symm
        simp only [strLtAux, if_neg hab] at h
        simp only [strLtAux, if_neg hba]
        simp only [decide_eq_true_eq] at h
        simp only [decide_eq_false_iff_not]
        omega

theorem strLtAux_total :
    ∀ (l m : List Char), l ≠ m → strLtAux l m = true ∨ strLtAux m l = true := by
  intro l
  induction l with
  | nil =>
    intro m h
    cases m with
    | nil => exact absurd rfl h
    | cons b bs => exact Or.inl rfl
  | cons a as ih =>
    intro m h
    cases m with
    | nil => exact Or.inr rfl
    | cons b bs =>
      by_cases hab : a = b
      · subst hab
        have hne : as ≠ bs := fun e => h (by rw [e])
        rcases ih bs hne with h1 | h1
        · exact Or.inl (by simp [strLtAux, h1])
        · exact Or.inr (by simp [strLtAux, h1])
      · have hnat : a.toNat ≠ b.toNat := fun e => hab (char_toNat_inj e)
        have hba : b ≠ a := fun e => hab e.symm
        rcases Nat.lt_or_ge a.toNat b.toNat with hlt | hge
        · exact Or.inl (by simp [strLtAux, if_neg hab, hlt])
        · have hgt : b.toNat < a.toNat := by omega
          exact Or.inr (by simp [strLtAux, if_neg hba, hgt])

theorem strLt_asymm (x y : String) (h : strLt x y = true) : strLt y x = false :=
  strLtAux_asymm _ _ h

theorem strLt_total (x y : String) (h : x ≠ y) :
    strLt x y = true ∨ strLt y x = true :=
  strLtAux_total _ _ (fun e => h (String.ext e))

/-! ## Concrete fixtures used by witnesses and counterexamples -/

/-- An operation dictionary with every key absent. -/
def opNone : ChangeOp :=
  { op := none, tableId := none, rowId := none, col := none, value := none,
    afterRowId := none, colIndex := none, header := none, name := none,
    ts := none }

/-- A row whose only cell already carries winning metadata `(100, "z")`. -/
def rowW : Row :=
  { rowId := "r", cells := ["w"],
    cellMeta := [some { value := "w", ts := some 100, by_ := "z" }] }

/-- A one-column table holding `rowW`. -/
def tableW : Table :=
  { id := "T", name := "T", headers := ["A"], rows := [rowW] }

/-- A fault-free store holding `tableW` and an empty event log. -/
def storeW : Store :=
  { tables := [tableW], events := [], nextId := 1, getTableCalls := 0,
    failUpdate := false, failAppend := false }

/-- A constant cursor generator (cursor content is irrelevant to every
verified property). -/
def genG : String → ChangeOp → String := fun _ _ => "g"

/-- A one-column table whose single cell has no metadata (a fresh cell). -/
def tblFresh : Table :=
  { id := "T", name := "T", headers := ["A"],
    rows := [{ rowId := "r", cells := ["x0"], cellMeta := [none] }] }

/-- A two-column table with one empty row. -/
def tbl2 : Table :=
  { id := "T", name := "T", headers := ["A", "B"],
    rows := [{ rowId := "r", cells := ["", ""], cellMeta := [] }] }

/-! ## C1 -/

/-- C1: for every `setCell` operation carrying `rowId`, `col`, `value` and
`ts`, targeting an existing row (row ids are unique within a table, per
the data-model invariant, so the matching row occurs exactly once): if the
target cell's metadata is absent or its `ts` is missing or zero, the
write is applied unconditionally; otherwise it is applied if and only if
`op.ts > existing.ts`, or `op.ts == existing.ts` and
`op.clientId > existing.by` (lexicographic string comparison) — the
condition captured verbatim by `lwwSpecApplies` — in which case
`cells[col]` and `cellMeta[col]` are overwritten with the new value,
timestamp and client id, and otherwise nothing is written. -/
theorem claim1_setCell_lww_rule (t : Table) (pre post : List Row) (r : Row)
    (rid : String) (c : Nat) (v : String) (τ : Int) (cid : String)
    (op : ChangeOp)
    (hrows : t.rows = pre ++ r :: post)
    (hpre : ∀ r' ∈ pre, r'.rowId ≠ rid) (hr : r.rowId = rid)
    (hpost : ∀ r' ∈ post, r'.rowId ≠ rid)
    (hop : op.rowId = some rid) (hcol : op.col = some c)
    (hts : op.ts = some τ) (hval : op.value = some v) :
    apply_set_cell (some t) op cid =
      .ok (if lwwSpecApplies (r.cellMeta.getD c none) τ cid then
            .write { t with rows := pre ++
              { r with
                cells := (padTo r.cells c).set c v,
                cellMeta := (padMetaTo r.cellMeta c).set c
                  (some { value := v, ts := some τ, by_ := cid }) } :: post }
           else .noWrite false) :=
  apply_set_cell_char t pre post r rid c v τ cid op hrows hpre hr hpost hop hcol hts hval

/-- The operation used by the C1 witness: a `setCell` that beats the
stored `(100, "z")` metadata with timestamp `200`. -/
def opW1 : ChangeOp :=
  { opNone with
    op := some "setCell"
    tableId := some "T"
    rowId := some "r"
    col := some 0
    value := some "x"
    ts := some 200 }

theorem claim1_witness :
    (tableW.rows = [] ++ rowW :: [] ∧ rowW.rowId = "r" ∧
     opW1.rowId = some "r" ∧ opW1.col = some 0 ∧ opW1.ts = some 200 ∧
     opW1.value = some "x") ∧
    apply_set_cell (some tableW) opW1 "b" =
      .ok (if lwwSpecApplies (rowW.cellMeta.getD 0 none) 200 "b" then
            .write { tableW with rows := [] ++
              { rowW with
                cells := (padTo rowW.cells 0).set 0 "x",
                cellMeta := (padMetaTo rowW.cellMeta 0).set 0
                  (some { value := "x", ts := some 200, by_ := "b" }) } :: [] }
           else .noWrite false) :=
  ⟨⟨rfl, rfl, rfl, rfl, rfl, rfl⟩,
   claim1_setCell_lww_rule tableW [] [] rowW "r" 0 "x" 200 "b" opW1 rfl
     (by simp) rfl (by simp) rfl rfl rfl rfl⟩

/-! ## Lemmas about `_apply_operation` and the push loop -/

/-- When the dispatched applier requests no write, `_apply_operation`
returns its boolean and the only store effect is the materialization
read. -/
theorem apply_operation_noWrite (s : Store) (op : ChangeOp)
    (cid ot tid : String) (b : Bool)
    (hot : op.op = some ot) (htid : op.tableId = some tid)
    (hot' : ot ≠ "") (htid' : tid ≠ "") (hdel : ot ≠ "deleteTable")
    (hpure : apply_pure ot (s.tables.find? (fun t => t.id = tid)) op cid =
      .ok (.noWrite b)) :
    apply_operation s op cid =
      (b, { s with getTableCalls := s.getTableCalls + 1 }) := by
  simp only [apply_operation, hot, htid, db_get_table]
  rw [if_neg (by simp [hot', htid'])]
  simp only [if_neg hdel, hpure]

/-- A push of a single operation whose apply fails: the push succeeds
with exactly one conflict record and the store as left by the failed
apply. -/
theorem process_sync_single_fail (gen : String → ChangeOp → String)
    (s s1 : Store) (cid base : String) (op : ChangeOp)
    (h : apply_operation s op cid = (false, s1)) :
    process_sync gen s cid base [op] =
      .ok ({ cursor := db_get_latest_cursor s1,
             deltas := get_other_client_changes s1 base cid,
             conflicts := [{ operation := op, reason := "Failed to apply" }] },
           s1) := by
  simp [process_sync, syncLoop, h]

/-! ## C9 -/

/-- C9: an `addRow` or `deleteRow` whose `rowId` is the empty string is
treated identically to one whose `rowId` is missing: on every table the
appliers behave the same on the two operations, both fail to apply, and
`process_sync` records the operation as a conflict (last conjunct). -/
theorem claim9_empty_rowid (table : Option Table) (op : ChangeOp)
    (cid : String) (h : op.rowId = some "") :
    apply_add_row table op cid = apply_add_row table { op with rowId := none } cid ∧
    apply_delete_row table op cid =
      apply_delete_row table { op with rowId := none } cid ∧
    apply_add_row table op cid = .noWrite false ∧
    apply_delete_row table op cid = .noWrite false ∧
    (∀ (gen : String → ChangeOp → String) (s : Store) (base tid : String),
      op.op = some "addRow" ∨ op.op = some "deleteRow" →
      op.tableId = some tid → tid ≠ "" →
      ∃ res s', process_sync gen s cid base [op] = .ok (res, s') ∧
        res.conflicts = [{ operation := op, reason := "Failed to apply" }]) := by
  have hadd : ∀ tb : Option Table, apply_add_row tb op cid = .noWrite false := by
    intro tb
    cases tb with
    | none => rfl
    | some t => simp [apply_add_row, h]
  have hdel : ∀ tb : Option Table, apply_delete_row tb op cid = .noWrite false := by
    intro tb
    cases tb with
    | none => rfl
    | some t => simp [apply_delete_row, h]
  have hadd' : apply_add_row table { op with rowId := none } cid = .noWrite false := by
    cases table with
    | none => rfl
    | some t => simp [apply_add_row]
  have hdel' : apply_delete_row table { op with rowId := none } cid = .noWrite false := by
    cases table with
    | none => rfl
    | some t => simp [apply_delete_row]
  refine ⟨(hadd table).trans hadd'.symm, (hdel table).trans hdel'.symm,
    hadd table, hdel table, ?_⟩
  intro gen s base tid hopty htid htid'
  have hfail : apply_operation s op cid =
      (false, { s with getTableCalls := s.getTableCalls + 1 }) := by
    rcases hopty with h9 | h9
    · exact apply_operation_noWrite s op cid "addRow" tid false h9 htid
        (by decide) htid' (by decide)
        (by simp [apply_pure, hadd (s.tables.find? (fun t => t.id = tid))])
    · exact apply_operation_noWrite s op cid "deleteRow" tid false h9 htid
        (by decide) htid' (by decide)
        (by simp [apply_pure, hdel (s.tables.find? (fun t => t.id = tid))])
  exact ⟨_, _, process_sync_single_fail gen s _ cid base op hfail, rfl⟩

/-- The witness operation for C9: an `addRow` with an empty `rowId`. -/
def opW9 : ChangeOp :=
  { opNone with
    op := some "addRow"
    tableId := some "T"
    rowId := some "" }

theorem claim9_witness :
    (opW9.rowId = some "") ∧
    apply_add_row (some tableW) opW9 "a" =
      apply_add_row (some tableW) { opW9 with rowId := none } "a" ∧
    apply_delete_row (some tableW) opW9 "a" =
      apply_delete_row (some tableW) { opW9 with rowId := none } "a" ∧
    apply_add_row (some tableW) opW9 "a" = .noWrite false ∧
    apply_delete_row (some tableW) opW9 "a" = .noWrite false ∧
    (∀ (gen : String → ChangeOp → String) (s : Store) (base tid : String),
      opW9.op = some "addRow" ∨ opW9.op = some "deleteRow" →
      opW9.tableId = some tid → tid ≠ "" →
      ∃ res s', process_sync gen s "a" base [opW9] = .ok (res, s') ∧
        res.conflicts = [{ operation := opW9, reason := "Failed to apply" }]) :=
  ⟨rfl, claim9_empty_rowid (some tableW) opW9 "a" rfl⟩

/-! ## C10 -/

/-- C10: a `setCell` whose `value` field is absent is not rejected; it is
treated exactly like one whose value is the empty string (the applier
reads `op.get("value", "")`), and, subject to the usual LWW rule, writes
`""` into `cells[col]` and into the new `CellMeta`'s `value`. -/
theorem claim10_missing_value (table : Option Table) (op : ChangeOp)
    (cid : String) (h : op.value = none) :
    apply_set_cell table op cid =
      apply_set_cell table { op with value := some "" } cid ∧
    (∀ (t : Table) (pre post : List Row) (r : Row) (rid : String) (c : Nat)
       (τ : Int),
      table = some t → t.rows = pre ++ r :: post →
      (∀ r' ∈ pre, r'.rowId ≠ rid) → r.rowId = rid →
      (∀ r' ∈ post, r'.rowId ≠ rid) →
      op.rowId = some rid → op.col = some c → op.ts = some τ →
      apply_set_cell table op cid =
        .ok (if lwwSpecApplies (r.cellMeta.getD c none) τ cid then
              .write { t with rows := pre ++
                { r with
                  cells := (padTo r.cells c).set c "",
                  cellMeta := (padMetaTo r.cellMeta c).set c
                    (some { value := "", ts := some τ, by_ := cid }) } :: post }
             else .noWrite false)) := by
  have heq : apply_set_cell table op cid =
      apply_set_cell table { op with value := some "" } cid := by
    cases table with
    | none => rfl
    | some t =>
      rcases hrow : op.rowId with _ | rid <;> rcases hcol : op.col with _ | c <;>
        simp [apply_set_cell, hrow, hcol, h]
  refine ⟨heq, ?_⟩
  intro t pre post r rid c τ htb hrows hpre hr hpost hop hcol hts
  subst htb
  rw [heq]
  exact apply_set_cell_char t pre post r rid c "" τ cid _ hrows hpre hr hpost
    (by simp [hop]) (by simp [hcol]) (by simp [hts]) (by simp)

/-- The witness operation for C10: a `setCell` with no `value` key. -/
def opW10 : ChangeOp :=
  { opNone with
    op := some "setCell"
    tableId := some "T"
    rowId := some "r"
    col := some 0
    ts := some 5 }

theorem claim10_witness :
    (opW10.value = none) ∧
    (apply_set_cell (some tblFresh) opW10 "a" =
       apply_set_cell (some tblFresh) { opW10 with value := some "" } "a" ∧
     (∀ (t : Table) (pre post : List Row) (r : Row) (rid : String) (c : Nat)
        (τ : Int),
       (some tblFresh : Option Table) = some t → t.rows = pre ++ r :: post →
       (∀ r' ∈ pre, r'.rowId ≠ rid) → r.rowId = rid →
       (∀ r' ∈ post, r'.rowId ≠ rid) →
       opW10.rowId = some rid → opW10.col = some c → opW10.ts = some τ →
       apply_set_cell (some tblFresh) opW10 "a" =
         .ok (if lwwSpecApplies (r.cellMeta.getD c none) τ "a" then
               .write { t with rows := pre ++
                 { r with
                   cells := (padTo r.cells c).set c "",
                   cellMeta := (padMetaTo r.cellMeta c).set c
                     (some { value := "", ts := some τ, by_ := "a" }) } :: post }
              else .noWrite false))) :=
  ⟨rfl, claim10_missing_value (some tblFresh) opW10 "a" rfl⟩

/-! ## C2: counterexample -/

/-- A `setCell` with timestamp zero, value `"x"` (sent by client `"b"`). -/
def opZb : ChangeOp :=
  { opNone with
    op := some "setCell"
    tableId := some "T"
    rowId := some "r"
    col := some 0
    value := some "x"
    ts := some 0 }

/-- The same cell write with value `"y"` (sent by client `"a"`). -/
def opZa : ChangeOp := { opZb with value := some "y" }

/-- C2 is false as stated: with `op1 = ("x", ts 0, client "b")` and
`op2 = ("y", ts 0, client "a")` racing for a fresh cell,
`(op2.ts, op2.clientId) < (op1.ts, op1.clientId)` lexicographically, so
the claim demands that `op1.value = "x"` survive in either order; but
because an applied write with `ts = 0` is stored as zero-`ts` metadata,
the next write is applied unconditionally, so whichever operation arrives
second wins: the two arrival orders yield different surviving values
(`"y"` vs `"x"`), and in the first order the survivor is `op2.value`
even though `(op2.ts, op2.clientId)` is not greater. -/
theorem claim2_counterexample :
    cellValue (runSetCell (runSetCell tblFresh opZb "b") opZa "a") "r" 0 = "y" ∧
    cellValue (runSetCell (runSetCell tblFresh opZa "a") opZb "b") "r" 0 = "x" ∧
    lexGt ((0 : Int), "a") ((0 : Int), "b") = false := by
  refine ⟨?_, ?_, ?_⟩ <;> decide

/-! ## C3: counterexample -/

/-- A `setCell` at column 5 of a two-column table. -/
def opW3 : ChangeOp :=
  { opNone with
    op := some "setCell"
    tableId := some "T"
    rowId := some "r"
    col := some 5
    value := some "v"
    ts := some 1 }

/-- C3 is false as stated: applying `setCell` at column 5 of the
two-header table `tbl2` succeeds (the applier pads the row), after which
the affected row has 6 cells while the table still has 2 headers, so
`len(r.cells) == len(table.headers)` fails after a successfully applied
operation. -/
theorem claim3_counterexample :
    (resultTable (apply_pure "setCell" (some tbl2) opW3 "a")).map
      (fun t => (t.rows.map (fun r => r.cells.length), t.headers.length)) =
      some ([6], 2) ∧ (6 : Nat) ≠ 2 := by
  refine ⟨?_, ?_⟩ <;> decide

/-! ## C3: preservation machinery -/

theorem length_insertClamped {α : Type} (ci : Int) (a : α) (l : List α) :
    (insertClamped ci a l).length = l.length + 1 := by
  unfold insertClamped
  split
  · next h => exact List.length_insertIdx _ _ (Int.toNat_le.mpr h.2)
  · simp

theorem mem_insertAfterRow (a : String) (nr : Row) :
    ∀ (l : List Row) (x : Row), x ∈ insertAfterRow a nr l → x = nr ∨ x ∈ l := by
  intro l
  induction l with
  | nil =>
    intro x hx
    simp only [insertAfterRow, List.mem_singleton] at hx
    exact Or.inl hx
  | cons r rest ih =>
    intro x hx
    by_cases hr : r.rowId = a
    · simp only [insertAfterRow, if_pos hr, List.mem_cons] at hx
      rcases hx with h | h | h
      · exact Or.inr (by simp [h])
      · exact Or.inl h
      · exact Or.inr (by simp [h])
    · simp only [insertAfterRow, if_neg hr, List.mem_cons] at hx
      rcases hx with h | h
      · exact Or.inr (by simp [h])
      · rcases ih x h with h' | h'
        · exact Or.inl h'
        · exact Or.inr (by simp [h'])

/-- The row scan of `_apply_set_cell` never changes any row's cell count
when the target column is within `H` and every row has `H` cells. -/
theorem setCellLoop_length (rid : String) (c : Nat) (v : String)
    (ts : Option Int) (cid : String) (H : Nat) (hc : c < H) :
    ∀ (rows : List Row) (b : Bool) (rows' : List Row),
      (∀ r ∈ rows, r.cells.length = H) →
      setCellLoop rid c v ts cid rows = .ok (b, rows') →
      ∀ r ∈ rows', r.cells.length = H := by
  intro rows
  induction rows with
  | nil =>
    intro b rows' _ hrun r hr
    simp only [setCellLoop] at hrun
    injection hrun with h1
    injection h1 with hb hrows
    rw [← hrows] at hr
    cases hr
  | cons r0 rest ih =>
    intro b rows' hlen hrun
    have h0 : r0.cells.length = H := hlen r0 (List.mem_cons_self _ _)
    have hrest : ∀ r ∈ rest, r.cells.length = H :=
      fun r hr => hlen r (List.mem_cons_of_mem _ hr)
    have hpad : padTo r0.cells c = r0.cells :=
      padList_of_lt "" r0.cells c (by rw [h0]; exact hc)
    by_cases hr0 : r0.rowId = rid
    · simp only [setCellLoop, if_pos hr0] at hrun
      cases hs : should_apply_change ((padMetaTo r0.cellMeta c).getD c none) ts cid with
      | error e => rw [hs] at hrun; cases hrun
      | ok bb =>
        rw [hs] at hrun
        cases bb
        · cases hrest' : setCellLoop rid c v ts cid rest with
          | error e => rw [hrest'] at hrun; cases hrun
          | ok pr =>
            obtain ⟨b2, rest2⟩ := pr
            rw [hrest'] at hrun
            injection hrun with h1
            have h2 := (Prod.mk.injEq _ _ _ _).mp h1
            intro r hr
            rw [← h2.2] at hr
            rcases List.mem_cons.mp hr with rfl | hr
            · simpa [padTo] using (by rw [hpad]; exact h0 :
                (padTo r0.cells c).length = H)
            · exact ih b2 rest2 hrest hrest' r hr
        · injection hrun with h1
          have h2 := (Prod.mk.injEq _ _ _ _).mp h1
          intro r hr
          rw [← h2.2] at hr
          rcases List.mem_cons.mp hr with rfl | hr
          · simp only [List.length_set]
            rw [hpad]; exact h0
          · exact hrest r hr
    · simp only [setCellLoop, if_neg hr0] at hrun
      cases hrest' : setCellLoop rid c v ts cid rest with
      | error e => rw [hrest'] at hrun; cases hrun
      | ok pr =>
        obtain ⟨b2, rest2⟩ := pr
        rw [hrest'] at hrun
        injection hrun with h1
        have h2 := (Prod.mk.injEq _ _ _ _).mp h1
        intro r hr
        rw [← h2.2] at hr
        rcases List.mem_cons.mp hr with rfl | hr
        · exact h0
        · exact ih b2 rest2 hrest hrest' r hr

theorem apply_set_cell_preserves (t t' : Table) (op : ChangeOp) (cid : String)
    (hinv : ∀ r ∈ t.rows, r.cells.length = t.headers.length)
    (hcol : ∀ c, op.col = some c → c < t.headers.length)
    (h : apply_set_cell (some t) op cid = .ok (.write t')) :
    ∀ r ∈ t'.rows, r.cells.length = t'.headers.length := by
  rcases hrow : op.rowId with _ | rid
  · simp [apply_set_cell, hrow] at h
  · rcases hcol' : op.col with _ | c
    · simp [apply_set_cell, hrow, hcol'] at h
    · cases hloop : setCellLoop rid c (op.value.getD "") op.ts cid t.rows with
      | error e => simp [apply_set_cell, hrow, hcol', hloop] at h
      | ok pr =>
        obtain ⟨b, rows'⟩ := pr
        cases b
        · simp [apply_set_cell, hrow, hcol', hloop] at h
        · simp only [apply_set_cell, hrow, hcol', hloop] at h
          injection h with h1
          injection h1 with h2
          subst h2
          intro r hr
          exact setCellLoop_length rid c (op.value.getD "") op.ts cid
            t.headers.length (hcol c hcol') t.rows true rows' hinv hloop r hr

theorem apply_add_row_preserves (t t' : Table) (op : ChangeOp) (cid : String)
    (hinv : ∀ r ∈ t.rows, r.cells.length = t.headers.length)
    (h : apply_add_row (some t) op cid = .write t') :
    ∀ r ∈ t'.rows, r.cells.length = t'.headers.length := by
  rcases hrow : op.rowId with _ | rid
  · simp [apply_add_row, hrow] at h
  · simp only [apply_add_row, hrow] at h
    by_cases hrid : rid = ""
    · rw [if_pos hrid] at h; simp at h
    · rw [if_neg hrid] at h
      by_cases hex : (t.rows.any fun r => r.rowId = rid) = true
      · rw [if_pos hex] at h; simp at h
      · rw [if_neg hex] at h
        have hnew : (Row.mk rid (List.replicate t.headers.length "") []).cells.length =
            t.headers.length := by simp
        rcases hafter : op.afterRowId with _ | a <;> simp only [hafter] at h
        · injection h with h1
          subst h1
          intro r hr
          rcases List.mem_append.mp hr with hm | hm
          · exact hinv r hm
          · rw [List.mem_singleton.mp hm]; exact hnew
        · by_cases ha : a = ""
          · rw [if_pos ha] at h
            injection h with h1
            subst h1
            intro r hr
            rcases List.mem_append.mp hr with hm | hm
            · exact hinv r hm
            · rw [List.mem_singleton.mp hm]; exact hnew
          · rw [if_neg ha] at h
            injection h with h1
            subst h1
            intro r hr
            rcases mem_insertAfterRow a _ t.rows r hr with hm | hm
            · rw [hm]; exact hnew
            · exact hinv r hm

theorem apply_delete_row_preserves (t t' : Table) (op : ChangeOp) (cid : String)
    (hinv : ∀ r ∈ t.rows, r.cells.length = t.headers.length)
    (h : apply_delete_row (some t) op cid = .write t') :
    ∀ r ∈ t'.rows, r.cells.length = t'.headers.length := by
  rcases hrow : op.rowId with _ | rid
  · simp [apply_delete_row, hrow] at h
  · simp only [apply_delete_row, hrow] at h
    by_cases hrid : rid = ""
    · rw [if_pos hrid] at h; simp at h
    · rw [if_neg hrid] at h
      injection h with h1
      subst h1
      intro r hr
      exact hinv r (List.mem_of_mem_filter hr)

theorem apply_add_column_preserves (t t' : Table) (op : ChangeOp) (cid : String)
    (hinv : ∀ r ∈ t.rows, r.cells.length = t.headers.length)
    (h : apply_add_column (some t) op cid = .write t') :
    ∀ r ∈ t'.rows, r.cells.length = t'.headers.length := by
  simp only [apply_add_column] at h
  injection h with h1
  subst h1
  intro r hr
  simp only [List.mem_map] at hr
  obtain ⟨r0, hr0, rfl⟩ := hr
  simp only [length_insertClamped]
  rw [hinv r0 hr0]

theorem apply_delete_column_preserves (t t' : Table) (op : ChangeOp) (cid : String)
    (hinv : ∀ r ∈ t.rows, r.cells.length = t.headers.length)
    (h : apply_delete_column (some t) op cid = .write t') :
    ∀ r ∈ t'.rows, r.cells.length = t'.headers.length := by
  rcases hci : op.colIndex with _ | ci
  · simp [apply_delete_column, hci] at h
  · simp only [apply_delete_column, hci] at h
    by_cases hrange : ci < 0 ∨ (t.headers.length : Int) ≤ ci
    · rw [if_pos hrange] at h; simp at h
    · rw [if_neg hrange] at h
      injection h with h1
      subst h1
      push_neg at hrange
      have hlt : ci.toNat < t.headers.length := by omega
      intro r hr
      simp only [List.mem_map] at hr
      obtain ⟨r0, hr0, rfl⟩ := hr
      have hr0len : r0.cells.length = t.headers.length := hinv r0 hr0
      simp only
      rw [if_pos (by rw [hr0len]; exact hlt)]
      rw [List.length_eraseIdx_of_lt (by rw [hr0len]; exact hlt),
        List.length_eraseIdx_of_lt hlt, hr0len]

theorem apply_set_header_preserves (t t' : Table) (op : ChangeOp) (cid : String)
    (hinv : ∀ r ∈ t.rows, r.cells.length = t.headers.length)
    (h : apply_set_header (some t) op cid = .write t') :
    ∀ r ∈ t'.rows, r.cells.length = t'.headers.length := by
  rcases hci : op.colIndex with _ | ci
  · simp [apply_set_header, hci] at h
  · simp only [apply_set_header, hci] at h
    by_cases hrange : 0 ≤ ci ∧ ci < (t.headers.length : Int)
    · rw [if_pos hrange] at h
      injection h with h1
      subst h1
      intro r hr
      simp only [List.length_set]
      exact hinv r hr
    · rw [if_neg hrange] at h; simp at h

theorem apply_rename_table_preserves (t t' : Table) (op : ChangeOp) (cid : String)
    (hinv : ∀ r ∈ t.rows, r.cells.length = t.headers.length)
    (h : apply_rename_table (some t) op cid = .write t') :
    ∀ r ∈ t'.rows, r.cells.length = t'.headers.length := by
  rcases hnm : op.name with _ | nm
  · simp [apply_rename_table, hnm] at h
  · simp only [apply_rename_table, hnm] at h
    by_cases hne : nm = ""
    · rw [if_pos hne] at h; simp at h
    · rw [if_neg hne] at h
      injection h with h1
      subst h1
      exact hinv

/-! ## C3 -/

/-- C3, amended: after every successfully applied table-mutating
operation, every row `r` of the affected table satisfies
`len(r.cells) == len(table.headers)` — provided every applied `setCell`
targets a column index below the header count.  (The unamended claim is
refuted by `claim3_counterexample`: a `setCell` beyond the header count
pads the row past the headers.) -/
theorem claim3_invariant_preserved (t t' : Table) (op : ChangeOp)
    (cid : String) (op_type : String)
    (hinv : ∀ r ∈ t.rows, r.cells.length = t.headers.length)
    (hcol : op_type = "setCell" → ∀ c, op.col = some c → c < t.headers.length)
    (happ : apply_pure op_type (some t) op cid = .ok (.write t')) :
    ∀ r ∈ t'.rows, r.cells.length = t'.headers.length := by
  unfold apply_pure at happ
  by_cases h1 : op_type = "setCell"
  · rw [if_pos h1] at happ
    exact apply_set_cell_preserves t t' op cid hinv (hcol h1) happ
  · rw [if_neg h1] at happ
    by_cases h2 : op_type = "addRow"
    · rw [if_pos h2] at happ
      injection happ with happ'
      exact apply_add_row_preserves t t' op cid hinv happ'
    · rw [if_neg h2] at happ
      by_cases h3 : op_type = "deleteRow"
      · rw [if_pos h3] at happ
        injection happ with happ'
        exact apply_delete_row_preserves t t' op cid hinv happ'
      · rw [if_neg h3] at happ
        by_cases h4 : op_type = "addColumn"
        · rw [if_pos h4] at happ
          injection happ with happ'
          exact apply_add_column_preserves t t' op cid hinv happ'
        · rw [if_neg h4] at happ
          by_cases h5 : op_type = "deleteColumn"
          · rw [if_pos h5] at happ
            injection happ with happ'
            exact apply_delete_column_preserves t t' op cid hinv happ'
          · rw [if_neg h5] at happ
            by_cases h6 : op_type = "setHeader"
            · rw [if_pos h6] at happ
              injection happ with happ'
              exact apply_set_header_preserves t t' op cid hinv happ'
            · rw [if_neg h6] at happ
              by_cases h7 : op_type = "renameTable"
              · rw [if_pos h7] at happ
                injection happ with happ'
                exact apply_rename_table_preserves t t' op cid hinv happ'
              · rw [if_neg h7] at happ
                simp at happ

/-- The witness operation for C3: an in-range `setCell`. -/
def opW3b : ChangeOp :=
  { opNone with
    op := some "setCell"
    tableId := some "T"
    rowId := some "r"
    col := some 0
    value := some "u"
    ts := some 3 }

/-- The post-image of `opW3b` applied to `tblFresh`. -/
def t3w : Table :=
  { tblFresh with rows :=
    [{ rowId := "r", cells := ["u"],
       cellMeta := [some { value := "u", ts := some 3, by_ := "a" }] }] }

theorem claim3_witness :
    ((∀ r ∈ tblFresh.rows, r.cells.length = tblFresh.headers.length) ∧
     ("setCell" = "setCell" →
       ∀ c, opW3b.col = some c → c < tblFresh.headers.length) ∧
     apply_pure "setCell" (some tblFresh) opW3b "a" = .ok (.write t3w)) ∧
    (∀ r ∈ t3w.rows, r.cells.length = t3w.headers.length) :=
  ⟨⟨by decide, by intro _ c hc; injection hc with h; subst h; decide, by decide⟩,
   claim3_invariant_preserved tblFresh t3w opW3b "a" "setCell" (by decide)
     (by intro _ c hc; injection hc with h; subst h; decide) (by decide)⟩

/-! ## C2 -/

theorem find?_rowId (rid : String) :
    ∀ (pre post : List Row) (r : Row), (∀ r' ∈ pre, r'.rowId ≠ rid) →
      r.rowId = rid →
      (pre ++ r :: post).find? (fun r' => r'.rowId = rid) = some r := by
  intro pre
  induction pre with
  | nil =>
    intro post r _ hr
    simp [List.find?_cons_of_pos, hr]
  | cons q qre ih =>
    intro post r hpre hr
    have hq : ¬(q.rowId = rid) := hpre q (List.mem_cons_self _ _)
    rw [List.cons_append, List.find?_cons_of_neg _ (by simpa using hq)]
    exact ih post r (fun x hx => hpre x (List.mem_cons_of_mem _ hx)) hr

theorem cellValue_decomp (t : Table) (pre post : List Row) (r : Row)
    (rid : String) (c : Nat)
    (hrows : t.rows = pre ++ r :: post)
    (hpre : ∀ r' ∈ pre, r'.rowId ≠ rid) (hr : r.rowId = rid) :
    cellValue t rid c = r.cells.getD c "" := by
  unfold cellValue
  rw [hrows, find?_rowId rid pre post r hpre hr]

theorem runSetCell_char (t : Table) (pre post : List Row) (r : Row)
    (rid : String) (c : Nat) (v : String) (τ : Int) (cid : String)
    (op : ChangeOp)
    (hrows : t.rows = pre ++ r :: post)
    (hpre : ∀ r' ∈ pre, r'.rowId ≠ rid) (hr : r.rowId = rid)
    (hpost : ∀ r' ∈ post, r'.rowId ≠ rid)
    (hop : op.rowId = some rid) (hcol : op.col = some c)
    (hts : op.ts = some τ) (hval : op.value = some v) :
    runSetCell t op cid =
      if lwwSpecApplies (r.cellMeta.getD c none) τ cid then
        { t with rows := pre ++
          { r with
            cells := (padTo r.cells c).set c v,
            cellMeta := (padMetaTo r.cellMeta c).set c
              (some { value := v, ts := some τ, by_ := cid }) } :: post }
      else t := by
  unfold runSetCell
  rw [apply_set_cell_char t pre post r rid c v τ cid op hrows hpre hr hpost
    hop hcol hts hval]
  cases lwwSpecApplies (r.cellMeta.getD c none) τ cid <;> simp

/-- Two successive `setCell` writes racing for a fresh cell: the first
always lands; the second lands iff the LWW rule accepts it against the
first's metadata. -/
theorem runSetCell_two_fresh (t : Table) (pre post : List Row) (r : Row)
    (rid : String) (c : Nat) (vA vB : String) (τA τB : Int) (cA cB : String)
    (opA opB : ChangeOp)
    (hrows : t.rows = pre ++ r :: post)
    (hpre : ∀ r' ∈ pre, r'.rowId ≠ rid) (hr : r.rowId = rid)
    (hpost : ∀ r' ∈ post, r'.rowId ≠ rid)
    (hfresh : metaFalsy (r.cellMeta.getD c none) = true)
    (hAr : opA.rowId = some rid) (hAc : opA.col = some c)
    (hAt : opA.ts = some τA) (hAv : opA.value = some vA)
    (hBr : opB.rowId = some rid) (hBc : opB.col = some c)
    (hBt : opB.ts = some τB) (hBv : opB.value = some vB) :
    cellValue (runSetCell (runSetCell t opA cA) opB cB) rid c =
      (if lwwSpecApplies (some { value := vA, ts := some τA, by_ := cA }) τB cB
       then vB else vA) := by
  obtain ⟨rA, hrAdef⟩ : ∃ rA : Row, rA =
      { r with
        cells := (padTo r.cells c).set c vA,
        cellMeta := (padMetaTo r.cellMeta c).set c
          (some { value := vA, ts := some τA, by_ := cA }) } := ⟨_, rfl⟩
  have hrA : rA.rowId = rid := by rw [hrAdef]; exact hr
  have hmetaA : rA.cellMeta.getD c none =
      some { value := vA, ts := some τA, by_ := cA } := by
    rw [hrAdef]; exact getD_set_padList none none r.cellMeta c _
  have hcellsA : rA.cells.getD c "" = vA := by
    rw [hrAdef]; exact getD_set_padList "" "" r.cells c vA
  have hA : runSetCell t opA cA = { t with rows := pre ++ rA :: post } := by
    rw [runSetCell_char t pre post r rid c vA τA cA opA hrows hpre hr hpost
      hAr hAc hAt hAv, lwwSpecApplies_of_falsy _ _ _ hfresh, hrAdef]
    simp
  rw [hA]
  have hB := runSetCell_char { t with rows := pre ++ rA :: post } pre post rA
    rid c vB τB cB opB rfl hpre hrA hpost hBr hBc hBt hBv
  rw [hmetaA] at hB
  cases hw : lwwSpecApplies (some { value := vA, ts := some τA, by_ := cA }) τB cB
  · rw [hw] at hB
    simp only [Bool.false_eq_true, if_false] at hB
    rw [hB, cellValue_decomp { t with rows := pre ++ rA :: post } pre post rA
      rid c rfl hpre hrA]
    simp only [Bool.false_eq_true, if_false]
    exact hcellsA
  · rw [hw] at hB
    simp only [if_true] at hB
    rw [hB, cellValue_decomp _ pre post
      { rA with
        cells := (padTo rA.cells c).set c vB,
        cellMeta := (padMetaTo rA.cellMeta c).set c
          (some { value := vB, ts := some τB, by_ := cB }) } rid c rfl hpre hrA]
    simp only [if_true]
    exact getD_set_padList "" "" rA.cells c vB

/-- C2, amended: for two `setCell` operations from two distinct clients
racing for the same fresh cell (its stored metadata absent, or with
missing/zero `ts` — two racing writes with no prior winner), and with
the proviso forced by `claim2_counterexample` that a zero client
timestamp is only allowed opposite a positive one (a stored zero `ts`
would make the next write apply unconditionally), the surviving value is
`op2.value` iff `(op2.ts, op2.clientId) > (op1.ts, op1.clientId)`
lexicographically, independent of arrival order. -/
theorem claim2_lww_convergence (t : Table) (pre post : List Row) (r : Row)
    (rid : String) (c : Nat) (v1 v2 : String) (τ1 τ2 : Int) (c1 c2 : String)
    (op1 op2 : ChangeOp)
    (hrows : t.rows = pre ++ r :: post)
    (hpre : ∀ r' ∈ pre, r'.rowId ≠ rid) (hr : r.rowId = rid)
    (hpost : ∀ r' ∈ post, r'.rowId ≠ rid)
    (hfresh : metaFalsy (r.cellMeta.getD c none) = true)
    (h1r : op1.rowId = some rid) (h1c : op1.col = some c)
    (h1t : op1.ts = some τ1) (h1v : op1.value = some v1)
    (h2r : op2.rowId = some rid) (h2c : op2.col = some c)
    (h2t : op2.ts = some τ2) (h2v : op2.value = some v2)
    (hcid : c1 ≠ c2)
    (hz1 : τ1 = 0 → 0 < τ2) (hz2 : τ2 = 0 → 0 < τ1) :
    cellValue (runSetCell (runSetCell t op1 c1) op2 c2) rid c =
      (if lexGt (τ2, c2) (τ1, c1) then v2 else v1) ∧
    cellValue (runSetCell (runSetCell t op2 c2) op1 c1) rid c =
      (if lexGt (τ2, c2) (τ1, c1) then v2 else v1) := by
  rw [runSetCell_two_fresh t pre post r rid c v1 v2 τ1 τ2 c1 c2 op1 op2 hrows
      hpre hr hpost hfresh h1r h1c h1t h1v h2r h2c h2t h2v,
    runSetCell_two_fresh t pre post r rid c v2 v1 τ2 τ1 c2 c1 op2 op1 hrows
      hpre hr hpost hfresh h2r h2c h2t h2v h1r h1c h1t h1v]
  constructor
  · by_cases hτ1 : τ1 = 0
    · subst hτ1
      have h2pos := hz1 rfl
      simp [lwwSpecApplies, lexGt, h2pos]
    · simp [lwwSpecApplies, lexGt, hτ1]
  · by_cases hτ2 : τ2 = 0
    · subst hτ2
      have h1pos := hz2 rfl
      have e1 : decide (τ1 < (0 : Int)) = false := decide_eq_false (by omega)
      have e2 : decide ((0 : Int) = τ1) = false := decide_eq_false (by omega)
      simp [lwwSpecApplies, lexGt, e1, e2]
    · by_cases hτ1 : τ1 = 0
      · subst hτ1
        have h2pos := hz1 rfl
        have e1 : decide (τ2 < (0 : Int)) = false := decide_eq_false (by omega)
        have e2 : decide ((0 : Int) = τ2) = false := decide_eq_false (by omega)
        have e3 : decide ((0 : Int) < τ2) = true := decide_eq_true h2pos
        simp [lwwSpecApplies, lexGt, hτ2, e1, e2, e3]
      · rcases lt_trichotomy τ1 τ2 with hlt | heq | hgt
        · have e1 : decide (τ2 < τ1) = false := decide_eq_false (by omega)
          have e2 : decide (τ1 = τ2) = false := decide_eq_false (by omega)
          have e3 : decide (τ1 < τ2) = true := decide_eq_true hlt
          simp [lwwSpecApplies, lexGt, hτ2, e1, e2, e3]
        · subst heq
          rcases strLt_total c1 c2 hcid with hs | hs
          · have hs' : strLt c2 c1 = false := strLt_asymm c1 c2 hs
            simp [lwwSpecApplies, lexGt, hτ2, hs, hs']
          · have hs' : strLt c1 c2 = false := strLt_asymm c2 c1 hs
            simp [lwwSpecApplies, lexGt, hτ2, hs, hs']
        · have e1 : decide (τ2 < τ1) = true := decide_eq_true hgt
          have e2 : decide (τ2 = τ1) = false := decide_eq_false (by omega)
          have e3 : decide (τ1 < τ2) = false := decide_eq_false (by omega)
          simp [lwwSpecApplies, lexGt, hτ2, e1, e2, e3]

/-- The C2 witness operations: two writes to the fresh cell of
`tblFresh` with timestamps 5 and 9. -/
def opC2a : ChangeOp :=
  { opNone with
    op := some "setCell"
    tableId := some "T"
    rowId := some "r"
    col := some 0
    value := some "V1"
    ts := some 5 }

/-- See `opC2a`; the competing write. -/
def opC2b : ChangeOp :=
  { opC2a with value := some "V2", ts := some 9 }

theorem claim2_witness :
    (tblFresh.rows = [] ++ { rowId := "r", cells := ["x0"], cellMeta := [none] } :: [] ∧
     metaFalsy (({ rowId := "r", cells := ["x0"], cellMeta := [none] } : Row).cellMeta.getD 0 none) = true ∧
     ("a" : String) ≠ "b" ∧ ((5 : Int) = 0 → (0 : Int) < 9) ∧ ((9 : Int) = 0 → (0 : Int) < 5)) ∧
    (cellValue (runSetCell (runSetCell tblFresh opC2a "a") opC2b "b") "r" 0 =
      (if lexGt (9, "b") (5, "a") then "V2" else "V1") ∧
     cellValue (runSetCell (runSetCell tblFresh opC2b "b") opC2a "a") "r" 0 =
      (if lexGt (9, "b") (5, "a") then "V2" else "V1")) :=
  ⟨⟨rfl, rfl, by decide, by omega, by omega⟩,
   claim2_lww_convergence tblFresh [] [] _ "r" 0 "V1" "V2" 5 9 "a" "b"
     opC2a opC2b rfl (by simp) rfl (by simp) rfl rfl rfl rfl rfl rfl rfl rfl rfl
     (by decide) (by omega) (by omega)⟩

/-! ## C4 -/

/-- A `setCell` that loses the LWW race against `rowW`'s stored
`(ts 100, by "z")` metadata. -/
def opL : ChangeOp :=
  { opNone with
    op := some "setCell"
    tableId := some "T"
    rowId := some "r"
    col := some 0
    value := some "l"
    ts := some 50 }

/-- C4 is false as stated: pushing the LWW-losing `opL` (its `(50, "a")`
does not beat the stored `(100, "z")`) leaves the push successful but
**does** add an entry for the operation to the returned conflicts list —
`_apply_set_cell` returns `False` on an LWW loss, and `process_sync`
records every failed apply as `{"operation": op, "reason": "Failed to
apply"}`. -/
theorem claim4_counterexample :
    process_sync genG storeW "a" "0" [opL] =
      .ok ({ cursor := "0", deltas := [],
             conflicts := [{ operation := opL, reason := "Failed to apply" }] },
           { storeW with getTableCalls := 1 }) := by decide

/-- C4, amended: a `setCell` that loses the LWW race (target row and
nonzero-`ts` cell metadata exist and the incoming `(ts, clientId)` does
not beat the stored `(ts, by)`) is dropped without any store write — the
push still succeeds and the store's tables and events are untouched — but
an entry `{operation, reason: "Failed to apply"}` for the operation *is*
added to the conflicts list returned to the caller (the loss is not
silent). -/
theorem claim4_lww_loss_conflict (gen : String → ChangeOp → String)
    (s : Store) (cid base : String) (op : ChangeOp) (tid : String) (t : Table)
    (pre post : List Row) (r : Row) (rid : String) (c : Nat) (v : String)
    (τ : Int) (m : CellMeta) (mτ : Int)
    (hopty : op.op = some "setCell") (htid : op.tableId = some tid)
    (htid' : tid ≠ "")
    (hfind : s.tables.find? (fun u => u.id = tid) = some t)
    (hrows : t.rows = pre ++ r :: post)
    (hpre : ∀ r' ∈ pre, r'.rowId ≠ rid) (hr : r.rowId = rid)
    (hpost : ∀ r' ∈ post, r'.rowId ≠ rid)
    (hop : op.rowId = some rid) (hcol : op.col = some c)
    (hts : op.ts = some τ) (hval : op.value = some v)
    (hmeta : r.cellMeta.getD c none = some m) (hmts : m.ts = some mτ)
    (hm0 : mτ ≠ 0)
    (hlose1 : ¬(mτ < τ)) (hlose2 : τ = mτ → strLt m.by_ cid = false) :
    ∃ res s', process_sync gen s cid base [op] = .ok (res, s') ∧
      res.conflicts = [{ operation := op, reason := "Failed to apply" }] ∧
      s'.tables = s.tables ∧ s'.events = s.events := by
  have e1 : decide (mτ < τ) = false := decide_eq_false hlose1
  have hlww : lwwSpecApplies (some m) τ cid = false := by
    by_cases hteq : τ = mτ
    · have e2 := hlose2 hteq
      simp [lwwSpecApplies, hmts, hm0, e1, hteq, e2]
    · have e2 : decide (τ = mτ) = false := decide_eq_false hteq
      simp [lwwSpecApplies, hmts, hm0, e1, e2]
  have hchar := apply_set_cell_char t pre post r rid c v τ cid op hrows hpre hr
    hpost hop hcol hts hval
  rw [hmeta, hlww] at hchar
  simp only [Bool.false_eq_true, if_false] at hchar
  have hpure : apply_pure "setCell" (s.tables.find? (fun u => u.id = tid)) op cid =
      .ok (.noWrite false) := by
    rw [hfind]
    simpa [apply_pure] using hchar
  have hfail := apply_operation_noWrite s op cid "setCell" tid false hopty htid
    (by decide) htid' (by decide) hpure
  exact ⟨_, _, process_sync_single_fail gen s _ cid base op hfail, rfl, rfl, rfl⟩

theorem claim4_witness :
    (storeW.tables.find? (fun u => u.id = "T") = some tableW ∧
     tableW.rows = [] ++ rowW :: [] ∧ rowW.rowId = "r" ∧
     rowW.cellMeta.getD 0 none =
       some { value := "w", ts := some 100, by_ := "z" } ∧
     ¬((100 : Int) < 50) ∧
     ((50 : Int) = 100 → strLt "z" "a" = false)) ∧
    (∃ res s', process_sync genG storeW "a" "base7" [opL] = .ok (res, s') ∧
      res.conflicts = [{ operation := opL, reason := "Failed to apply" }] ∧
      s'.tables = storeW.tables ∧ s'.events = storeW.events) :=
  ⟨⟨rfl, rfl, rfl, rfl, by omega, by omega⟩,
   claim4_lww_loss_conflict genG storeW "a" "base7" opL "T" tableW [] [] rowW
     "r" 0 "l" 50 { value := "w", ts := some 100, by_ := "z" } 100 rfl rfl
     (by decide) rfl rfl (by simp) rfl (by simp) rfl rfl rfl rfl rfl rfl
     (by decide) (by omega) (by omega)⟩

/-! ## C5 -/

/-- `_apply_operation` when the dispatched applier requests a write:
the outcome is whatever `update_table` yields (a raised storage fault is
caught and reported as `False`). -/
theorem apply_operation_write (s : Store) (op : ChangeOp)
    (cid ot tid : String) (t' : Table)
    (hot : op.op = some ot) (htid : op.tableId = some tid)
    (hot' : ot ≠ "") (htid' : tid ≠ "") (hdel : ot ≠ "deleteTable")
    (hpure : apply_pure ot (s.tables.find? (fun u => u.id = tid)) op cid =
      .ok (.write t')) :
    apply_operation s op cid =
      (match db_update_table { s with getTableCalls := s.getTableCalls + 1 }
          t'.id t' with
       | .error _ => (false, { s with getTableCalls := s.getTableCalls + 1 })
       | .ok (b, s2) => (b, s2)) := by
  simp only [apply_operation, hot, htid, db_get_table]
  rw [if_neg (by simp [hot', htid'])]
  simp only [if_neg hdel, hpure]

/-- A push of a single operation that applies successfully but whose
event append raises: `process_sync` re-raises with the store as mutated
by the apply. -/
theorem process_sync_single_append_fault (gen : String → ChangeOp → String)
    (s s2 : Store) (cid base : String) (op : ChangeOp)
    (h : apply_operation s op cid = (true, s2)) (hfa : s2.failAppend = true) :
    process_sync gen s cid base [op] =
      .error ("storage fault: add_sync_event", s2) := by
  simp [process_sync, syncLoop, h, db_add_sync_event, hfa]

/-- C5, amended: the applier does *not* distinguish apply-failure from
storage fault during apply — `_apply_operation` catches every exception
and reports `False`, so missing required fields, absent targets *and*
storage faults raised inside the per-operation apply all yield a conflict
record while the push succeeds.  Only a storage fault outside the
per-operation apply (here: appending the sync event) is re-raised,
causing the push to return `success=false` with the error and the
caller's `baseCursor` echoed back, empty deltas and empty conflicts. -/
theorem claim5_failure_model (gen : String → ChangeOp → String)
    (cid base : String) :
    (∀ (s : Store) (op : ChangeOp) (tid : String),
      op.op = some "setCell" → op.tableId = some tid → tid ≠ "" →
      op.rowId = none →
      (sync_push gen s { clientId := cid, baseCursor := base, ops := [op] }).1.success =
        true ∧
      (sync_push gen s { clientId := cid, baseCursor := base, ops := [op] }).1.conflicts =
        [{ operation := op, reason := "Failed to apply" }]) ∧
    (∀ (s : Store) (op : ChangeOp) (tid nm : String) (t : Table),
      s.failUpdate = true →
      op.op = some "renameTable" → op.tableId = some tid → tid ≠ "" →
      op.name = some nm → nm ≠ "" →
      s.tables.find? (fun u => u.id = tid) = some t →
      (sync_push gen s { clientId := cid, baseCursor := base, ops := [op] }).1.success =
        true ∧
      (sync_push gen s { clientId := cid, baseCursor := base, ops := [op] }).1.conflicts =
        [{ operation := op, reason := "Failed to apply" }]) ∧
    (∀ (s : Store) (op : ChangeOp) (tid nm : String) (t : Table),
      s.failUpdate = false → s.failAppend = true →
      op.op = some "renameTable" → op.tableId = some tid → tid ≠ "" →
      op.name = some nm → nm ≠ "" →
      s.tables.find? (fun u => u.id = tid) = some t →
      (sync_push gen s { clientId := cid, baseCursor := base, ops := [op] }).1 =
        { success := false, cursor := base, deltas := [], conflicts := [],
          error := some "storage fault: add_sync_event" }) := by
  refine ⟨?_, ?_, ?_⟩
  · intro s op tid h1 h2 h3 h4
    have hpure : apply_pure "setCell" (s.tables.find? (fun u => u.id = tid))
        op cid = .ok (.noWrite false) := by
      cases hfind : s.tables.find? (fun u => u.id = tid) with
      | none => simp [apply_pure, apply_set_cell]
      | some t => simp [apply_pure, apply_set_cell, h4]
    have hfail := apply_operation_noWrite s op cid "setCell" tid false h1 h2
      (by decide) h3 (by decide) hpure
    have hps := process_sync_single_fail gen s _ cid base op hfail
    constructor <;> simp [sync_push, hps]
  · intro s op tid nm t hfu h1 h2 h3 h4 h5 hfind
    have hpure : apply_pure "renameTable" (s.tables.find? (fun u => u.id = tid))
        op cid = .ok (.write { t with name := nm }) := by
      rw [hfind]
      simp [apply_pure, apply_rename_table, h4, h5]
    have hstep := apply_operation_write s op cid "renameTable" tid
      { t with name := nm } h1 h2 (by decide) h3 (by decide) hpure
    rw [show db_update_table { s with getTableCalls := s.getTableCalls + 1 }
        ({ t with name := nm } : Table).id { t with name := nm } =
        .error "storage fault: update_table" from by
      simp [db_update_table, hfu]] at hstep
    have hps := process_sync_single_fail gen s _ cid base op hstep
    constructor <;> simp [sync_push, hps]
  · intro s op tid nm t hfu hfa h1 h2 h3 h4 h5 hfind
    have hpure : apply_pure "renameTable" (s.tables.find? (fun u => u.id = tid))
        op cid = .ok (.write { t with name := nm }) := by
      rw [hfind]
      simp [apply_pure, apply_rename_table, h4, h5]
    have hstep := apply_operation_write s op cid "renameTable" tid
      { t with name := nm } h1 h2 (by decide) h3 (by decide) hpure
    have htidT : t.id = tid := by
      have := List.find?_some hfind
      simpa using this
    have hany : (({ s with getTableCalls := s.getTableCalls + 1 } : Store).tables.any
        (fun u => u.id = ({ t with name := nm } : Table).id)) = true := by
      refine List.any_eq_true.mpr ⟨t, ?_, ?_⟩
      · exact List.mem_of_find?_eq_some hfind
      · simp [htidT]
    rw [show db_update_table { s with getTableCalls := s.getTableCalls + 1 }
        ({ t with name := nm } : Table).id { t with name := nm } =
        .ok (true, { s with
          getTableCalls := s.getTableCalls + 1,
          tables := s.tables.map
            (fun u => if u.id = ({ t with name := nm } : Table).id
                      then { t with name := nm } else u) }) from by
      simp only [db_update_table, hfu]
      simp [hany]] at hstep
    have hps := process_sync_single_append_fault gen s _ cid base op hstep
      (by simpa using hfa)
    simp [sync_push, hps]

/-- A valid `renameTable` operation. -/
def opR : ChangeOp :=
  { opNone with
    op := some "renameTable"
    tableId := some "T"
    name := some "N" }

/-- A `setCell` with a missing `rowId` (a missing required field). -/
def opM : ChangeOp :=
  { opNone with
    op := some "setCell"
    tableId := some "T" }

/-- C5 is false as stated: with an injected storage fault in
`update_table`, applying a valid `renameTable` raises inside the per-op
apply, but `_apply_operation` catches the exception and returns `False`,
so the push *succeeds* (`success=true`) and the operation surfaces as an
ordinary conflict record — it is not raised as an error and the response
is not `success=false`. -/
theorem claim5_counterexample :
    (sync_push genG { storeW with failUpdate := true }
      { clientId := "a", baseCursor := "0", ops := [opR] }).1.success = true ∧
    (sync_push genG { storeW with failUpdate := true }
      { clientId := "a", baseCursor := "0", ops := [opR] }).1.conflicts =
      [{ operation := opR, reason := "Failed to apply" }] ∧
    ({ storeW with failUpdate := true } : Store).failUpdate = true := by
  refine ⟨?_, ?_, ?_⟩ <;> decide

theorem claim5_witness :
    ((sync_push genG storeW
        { clientId := "a", baseCursor := "0", ops := [opM] }).1.success = true ∧
     (sync_push genG storeW
        { clientId := "a", baseCursor := "0", ops := [opM] }).1.conflicts =
       [{ operation := opM, reason := "Failed to apply" }]) ∧
    ((sync_push genG { storeW with failUpdate := true }
        { clientId := "a", baseCursor := "0", ops := [opR] }).1.success = true ∧
     (sync_push genG { storeW with failUpdate := true }
        { clientId := "a", baseCursor := "0", ops := [opR] }).1.conflicts =
       [{ operation := opR, reason := "Failed to apply" }]) ∧
    ((sync_push genG { storeW with failAppend := true }
        { clientId := "a", baseCursor := "0", ops := [opR] }).1 =
      { success := false, cursor := "0", deltas := [], conflicts := [],
        error := some "storage fault: add_sync_event" }) := by
  obtain ⟨ha, hb, hc⟩ := claim5_failure_model genG "a" "0"
  exact ⟨ha storeW opM "T" rfl rfl (by decide) rfl,
    hb { storeW with failUpdate := true } opR "T" "N" tableW rfl rfl rfl
      (by decide) rfl (by decide) rfl,
    hc { storeW with failAppend := true } opR "T" "N" tableW rfl rfl rfl rfl
      (by decide) rfl (by decide) rfl⟩

/-! ## C6 -/

/-- A `deleteTable` operation for table `"T"`. -/
def opD : ChangeOp :=
  { opNone with
    op := some "deleteTable"
    tableId := some "T" }

/-- C6 is false as stated: dispatching `opD` on `storeW` (which starts
with `getTableCalls = 0`) performs a `get_table` materialization read —
the counter ends at 1 — before the `deleteTable` branch runs;
`_apply_operation` reads the table unconditionally for every operation
type. -/
theorem claim6_counterexample :
    apply_operation storeW opD "c" =
      (true, { storeW with tables := [], getTableCalls := 1 }) := by decide

/-- C6, amended: the applier performs exactly one `get_table`
materialization read before dispatching a `deleteTable` (as it does for
every operation); the `deleteTable` handler itself then ignores the
fetched table and passes the `tableId` directly to the store's delete. -/
theorem claim6_delete_table_reads (s : Store) (op : ChangeOp)
    (cid tid : String)
    (hop : op.op = some "deleteTable") (htid : op.tableId = some tid)
    (hne : tid ≠ "") :
    apply_operation s op cid =
      apply_delete_table { s with getTableCalls := s.getTableCalls + 1 } tid ∧
    (apply_operation s op cid).2.getTableCalls = s.getTableCalls + 1 := by
  have h1 : apply_operation s op cid =
      apply_delete_table { s with getTableCalls := s.getTableCalls + 1 } tid := by
    simp only [apply_operation, hop, htid, db_get_table]
    rw [if_neg (by simp [hne])]
    simp
  exact ⟨h1, by rw [h1]; rfl⟩

theorem claim6_witness :
    (opD.op = some "deleteTable" ∧ opD.tableId = some "T" ∧
     ("T" : String) ≠ "") ∧
    (apply_operation storeW opD "c" =
       apply_delete_table { storeW with getTableCalls := storeW.getTableCalls + 1 } "T" ∧
     (apply_operation storeW opD "c").2.getTableCalls =
       storeW.getTableCalls + 1) :=
  ⟨⟨rfl, rfl, by decide⟩,
   claim6_delete_table_reads storeW opD "c" "T" rfl rfl (by decide)⟩

/-! ## C7 -/

theorem event_to_delta_by (e : SyncEvent) (d : Delta)
    (h : event_to_delta e = some d) : d.by_ = e.clientId := by
  rcases hop : e.operation with _ | o
  · simp [event_to_delta, hop] at h
  · simp only [event_to_delta, hop] at h
    injection h with h1
    rw [← h1]

theorem otherLoop_eq (cid : String) :
    ∀ evs : List SyncEvent,
      otherLoop cid evs =
        (evs.filter (fun e => !(e.clientId = cid : Bool))).filterMap
          event_to_delta := by
  intro evs
  induction evs with
  | nil => rfl
  | cons e rest ih =>
    by_cases hc : e.clientId = cid
    · simp [otherLoop, hc, ih]
    · cases hd : event_to_delta e with
      | none => simp [otherLoop, hc, hd, ih, List.filterMap_cons]
      | some d0 => simp [otherLoop, hc, hd, ih, List.filterMap_cons]

theorem otherLoop_mem_by (cid : String) :
    ∀ (evs : List SyncEvent) (d : Delta), d ∈ otherLoop cid evs →
      d.by_ ≠ cid := by
  intro evs
  induction evs with
  | nil => intro d hd; cases hd
  | cons e rest ih =>
    intro d hd
    by_cases hc : e.clientId = cid
    · simp only [otherLoop, if_pos hc] at hd
      exact ih d hd
    · rcases hdo : event_to_delta e with _ | d0
      · simp only [otherLoop, if_neg hc, hdo] at hd
        exact ih d hd
      · simp only [otherLoop, if_neg hc, hdo] at hd
        rcases List.mem_cons.mp hd with rfl | hd'
        · rw [event_to_delta_by e d hdo]
          exact hc
        · exact ih d hd'

/-- C7: for every push that completes, the deltas in the response are
exactly the projections of the (limit-100) events after `baseCursor` in
the post-push log whose originating `clientId` differs from the caller's;
in particular no returned delta carries the requesting client's id. -/
theorem claim7_push_filters_self (gen : String → ChangeOp → String)
    (s : Store) (cid base : String) (ops : List ChangeOp)
    (res : SyncResult) (s' : Store)
    (h : process_sync gen s cid base ops = .ok (res, s')) :
    res.deltas =
      ((db_get_events_since s' base 100).filter
        (fun e => !(e.clientId = cid : Bool))).filterMap event_to_delta ∧
    ∀ d ∈ res.deltas, d.by_ ≠ cid := by
  unfold process_sync at h
  cases hl : syncLoop gen cid s ops [] with
  | error es => rw [hl] at h; cases h
  | ok pr =>
    obtain ⟨conf, s''⟩ := pr
    rw [hl] at h
    injection h with h1
    injection h1 with hres hs
    subst hs
    rw [← hres]
    exact ⟨otherLoop_eq cid _, fun d hd => otherLoop_mem_by cid _ d hd⟩

/-- A store holding a single event originated by client `"d"`. -/
def storeE : Store :=
  { tables := [],
    events := [{ id := 1, cursor := "c1", clientId := "d",
                 operation := some opNone, serverTs := "" }],
    nextId := 2, getTableCalls := 0, failUpdate := false, failAppend := false }

/-- The projection of `storeE`'s single event. -/
def deltaE : Delta :=
  { op := none, tableId := none, rowId := none, col := none, value := none,
    afterRowId := none, colIndex := none, header := none, name := none,
    serverTs := "", by_ := "d" }

/-- The result of an empty push by client `"c"` against `storeE`. -/
def resE : SyncResult :=
  { cursor := "c1", deltas := [deltaE], conflicts := [] }

theorem claim7_witness :
    (process_sync genG storeE "c" "0" [] = .ok (resE, storeE)) ∧
    (resE.deltas =
      ((db_get_events_since storeE "0" 100).filter
        (fun e => !(e.clientId = "c" : Bool))).filterMap event_to_delta ∧
     ∀ d ∈ resE.deltas, d.by_ ≠ "c") :=
  ⟨by decide,
   claim7_push_filters_self genG storeE "c" "0" [] resE storeE (by decide)⟩

/-! ## C8 -/

/-- With unique cursors, looking up the last event's cursor finds the
last event itself. -/
theorem find?_cursor_getLast :
    ∀ (l : List SyncEvent) (hne : l ≠ []),
      l.Pairwise (fun a b => a.cursor ≠ b.cursor) →
      l.find? (fun e => e.cursor = (l.getLast hne).cursor) =
        some (l.getLast hne) := by
  intro l
  induction l with
  | nil => intro hne; exact absurd rfl hne
  | cons x rest ih =>
    intro hne hpw
    cases rest with
    | nil => simp [List.find?]
    | cons y ys =>
      have hys : (y :: ys : List SyncEvent) ≠ [] := by simp
      have hlast : (x :: y :: ys).getLast hne = (y :: ys).getLast hys :=
        List.getLast_cons hys
      have hmem : (y :: ys).getLast hys ∈ y :: ys := List.getLast_mem hys
      have hx : x.cursor ≠ ((y :: ys).getLast hys).cursor :=
        (List.pairwise_cons.mp hpw).1 _ hmem
      rw [hlast, List.find?_cons_of_neg _ (by simpa using hx)]
      exact ih hys (List.pairwise_cons.mp hpw).2

/-- In an id-sorted log every event's id is bounded by the last one's. -/
theorem le_getLast_of_sorted :
    ∀ (l : List SyncEvent) (hne : l ≠ []),
      l.Chain' (fun a b => a.id < b.id) →
      ∀ e ∈ l, e.id ≤ (l.getLast hne).id := by
  intro l
  induction l with
  | nil => intro hne; exact absurd rfl hne
  | cons x rest ih =>
    intro hne hch e he
    cases rest with
    | nil =>
      have : e = x := by simpa using he
      subst this
      simp [List.getLast]
    | cons y ys =>
      have hys : (y :: ys : List SyncEvent) ≠ [] := by simp
      obtain ⟨hxy, htail⟩ := List.chain'_cons.mp hch
      have hlast : (x :: y :: ys).getLast hne = (y :: ys).getLast hys :=
        List.getLast_cons hys
      rcases List.mem_cons.mp he with rfl | he'
      · have hy := ih hys htail y (List.mem_cons_self _ _)
        rw [hlast]; omega
      · rw [hlast]; exact ih hys htail e he'

/-- No event in an id-sorted log comes after the last one. -/
theorem filter_gt_getLast (l : List SyncEvent) (hne : l ≠ [])
    (hch : l.Chain' (fun a b => a.id < b.id)) :
    l.filter (fun e => (l.getLast hne).id < e.id) = [] := by
  rw [List.filter_eq_nil_iff]
  intro e he
  have := le_getLast_of_sorted l hne hch e he
  simp only [decide_eq_true_eq]
  omega

/-- C8: a pull returns at most 100 deltas (the store's default
`eventsSince` limit) yet its cursor is always the cursor of the globally
latest event; hence, on a well-formed log (ids strictly increasing,
cursors unique and never the sentinel `"0"`) holding more than 100 events
past the requested cursor, re-pulling with the returned cursor yields
nothing, and the events between the 100th returned one and the latest one
are skipped: they appear in neither the first pull's window nor the
re-pull. -/
theorem claim8_pull_truncation_skips (s : Store) (c : String)
    (hsorted : s.events.Chain' (fun a b => a.id < b.id))
    (hcur : s.events.Pairwise (fun a b => a.cursor ≠ b.cursor))
    (h0 : ∀ e ∈ s.events, e.cursor ≠ "0")
    (hmany : 100 < (eventsAfterCursor s c).length) :
    (get_changes_since s c).deltas.length ≤ 100 ∧
    (get_changes_since s c).cursor = db_get_latest_cursor s ∧
    db_get_events_since s (get_changes_since s c).cursor 100 = [] ∧
    ∃ e ∈ eventsAfterCursor s c,
      e ∉ db_get_events_since s c 100 ∧
      e ∉ db_get_events_since s (get_changes_since s c).cursor 100 := by
  have hne : s.events ≠ [] := by
    intro h
    by_cases hc0 : c = "0" <;> simp [eventsAfterCursor, hc0, h] at hmany
  have hlatest : db_get_latest_cursor s = (s.events.getLast hne).cursor := by
    unfold db_get_latest_cursor
    rw [List.getLast?_eq_getLast s.events hne]
  have h3 : db_get_events_since s (get_changes_since s c).cursor 100 = [] := by
    have hafter : eventsAfterCursor s ((s.events.getLast hne).cursor) = [] := by
      unfold eventsAfterCursor
      rw [if_neg (h0 _ (List.getLast_mem hne)),
        find?_cursor_getLast s.events hne hcur]
      exact filter_gt_getLast s.events hne hsorted
    show (eventsAfterCursor s (db_get_latest_cursor s)).take 100 = []
    rw [hlatest, hafter]
    rfl
  refine ⟨?_, rfl, h3, ?_⟩
  · calc ((db_get_events_since s c 100).filterMap event_to_delta).length
        ≤ (db_get_events_since s c 100).length := List.length_filterMap_le _ _
      _ ≤ 100 := List.length_take_le _ _
  · have hdrop_ne : (eventsAfterCursor s c).drop 100 ≠ [] := by
      intro hd
      have hld := List.length_drop 100 (eventsAfterCursor s c)
      rw [hd] at hld
      simp at hld
      omega
    obtain ⟨e, hmem⟩ := List.exists_mem_of_ne_nil _ hdrop_ne
    haveI : IsTrans SyncEvent (fun a b => a.id < b.id) :=
      ⟨fun _ _ _ h1 h2 => Nat.lt_trans h1 h2⟩
    have hpairs : s.events.Pairwise (fun a b => a.id < b.id) :=
      List.chain'_iff_pairwise.mp hsorted
    have hpw : (eventsAfterCursor s c).Pairwise (fun a b => a.id < b.id) := by
      unfold eventsAfterCursor
      by_cases hc0 : c = "0"
      · simpa [hc0] using hpairs
      · rw [if_neg hc0]
        cases s.events.find? (fun e => e.cursor = c) with
        | none => exact List.Pairwise.nil
        | some e0 => exact List.Pairwise.filter _ hpairs
    have hpw2 : ((eventsAfterCursor s c).take 100 ++
        (eventsAfterCursor s c).drop 100).Pairwise (fun a b => a.id < b.id) := by
      rw [List.take_append_drop]
      exact hpw
    have hall := (List.pairwise_append.mp hpw2).2.2
    refine ⟨e, List.drop_subset 100 _ hmem, ?_, ?_⟩
    · intro hin
      exact absurd (hall e hin e hmem) (lt_irrefl _)
    · rw [h3]
      exact List.not_mem_nil e


/-- The `i`-th event of the C8 witness log; cursors are distinct strings
of `i + 1` copies of `'c'`. -/
def evN (i : Nat) : SyncEvent :=
  { id := i + 1, cursor := String.mk (List.replicate (i + 1) 'c'),
    clientId := "cl", operation := some opNone, serverTs := "" }

/-- A store whose log holds 102 events — more than one pull window. -/
def storeMany : Store :=
  { tables := [], events := (List.range 102).map evN, nextId := 103,
    getTableCalls := 0, failUpdate := false, failAppend := false }

theorem storeMany_sorted : storeMany.events.Chain' (fun a b => a.id < b.id) := by
  show ((List.range 102).map evN).Chain' _
  rw [List.chain'_map, show (102 : Nat) = 101 + 1 from rfl,
    List.chain'_range_succ]
  intro m _
  simp [evN]

theorem storeMany_cursors :
    storeMany.events.Pairwise (fun a b => a.cursor ≠ b.cursor) := by
  show ((List.range 102).map evN).Pairwise _
  rw [List.pairwise_map]
  refine (List.pairwise_lt_range 102).imp ?_
  intro i j hij h
  simp only [evN] at h
  injection h with h'
  have hlen := congrArg List.length h'
  simp at hlen
  omega

theorem storeMany_no0 : ∀ e ∈ storeMany.events, e.cursor ≠ "0" := by
  intro e he
  simp only [storeMany, List.mem_map] at he
  obtain ⟨i, _, rfl⟩ := he
  simp only [evN]
  intro h
  rw [show ("0" : String) = String.mk ['0'] from rfl] at h
  injection h with h'
  rw [List.replicate_succ] at h'
  injection h' with hc _
  exact absurd hc (by decide)

theorem storeMany_many : 100 < (eventsAfterCursor storeMany "0").length := by
  show 100 < ((List.range 102).map evN).length
  simp

theorem claim8_witness :
    (storeMany.events.Chain' (fun a b => a.id < b.id) ∧
     storeMany.events.Pairwise (fun a b => a.cursor ≠ b.cursor) ∧
     (∀ e ∈ storeMany.events, e.cursor ≠ "0") ∧
     100 < (eventsAfterCursor storeMany "0").length) ∧
    ((get_changes_since storeMany "0").deltas.length ≤ 100 ∧
     (get_changes_since storeMany "0").cursor = db_get_latest_cursor storeMany ∧
     db_get_events_since storeMany (get_changes_since storeMany "0").cursor 100 = [] ∧
     ∃ e ∈ eventsAfterCursor storeMany "0",
       e ∉ db_get_events_since storeMany "0" 100 ∧
       e ∉ db_get_events_since storeMany
             (get_changes_since storeMany "0").cursor 100) :=
  ⟨⟨storeMany_sorted, storeMany_cursors, storeMany_no0, storeMany_many⟩,
   claim8_pull_truncation_skips storeMany "0" storeMany_sorted storeMany_cursors
     storeMany_no0 storeMany_many⟩

end SyncSpec
